import Mathlib

/-!
# gpuz: decoding the GPU-Z shared-memory region

A shallow embedding of `gpuz.go` (package `gpuz`): the byte cursor
(`readString`, `readInt32`, `readFloat64`), the layout decoder `GetStat`
and the accessors of `Stat`, followed by theorems about them.

Conventions of the embedding.

* A Go `byte` is a `Fin 256`; a Go `string` is the list of its bytes.
* A Go `uint32` / `uint64` is a `Nat` (reduced modulo `2^32` / `2^64` where
  the Go operation wraps).
* A `float64` is carried as its IEEE-754 bit pattern: `math.Float64frombits`
  is the identity on that representation.
* A Go `map[string]V` is an association list with at most one entry per key.
* A pair `(value, error)` returned by a Go function is a record with a field
  `err : Option Error`, `none` standing for `nil`.
* The object behind `*shm.Memory` is carried by value through the reads.
-/

set_option autoImplicit false

namespace gpuz

/-! ## Bytes, strings, errors -/

/-- A Go `byte`. -/
abbrev Byte := Fin 256

/-- A Go `string`: an immutable sequence of bytes. -/
abbrev GoString := List Byte

/-- The errors `GetStat` can return: the error of `shm.Open`, the error of a
`Read` that ran out of bytes, and the `fmt.Errorf("initialization failed ...")`
of line 102. -/
inductive Error where
  | SourceUnavailable
  | ShortRead
  | NoData
  deriving DecidableEq

/-! ## The byte source (`shm.Memory`) -/

/-- What was done to a byte source, in order. -/
inductive MemEvent where
  | read (n : Nat)
  | close
  deriving DecidableEq

/-- The state of a `shm.Memory`: the bytes of the region, the read cursor and
the history of the calls made on it. -/
structure Memory where
  data : List Byte
  pos : Nat
  log : List MemEvent
  deriving DecidableEq

/-- The result of `Memory.Read`: the bytes read, or the error. -/
structure ReadResult where
  bytes : List Byte
  err : Option Error
  mem : Memory
  deriving DecidableEq

/-- A byte source as `shm.Open` hands it out: cursor at 0, nothing done yet. -/
def Memory.fresh (data : List Byte) : Memory :=
  { data := data, pos := 0, log := [] }

/-- The `n` bytes of `data` starting at offset `off`. -/
def slice (data : List Byte) (off n : Nat) : List Byte :=
  (data.drop off).take n

/-- Modelled from the spec: `shm.Memory.Read` of the package
`github.com/hotafrika/shm`, which is imported by `gpuz.go`. Sequential
`read(n)` consumes the next `n` bytes and fails if fewer than `n` remain; a
failed read consumes nothing. -/
def Memory.Read (m : Memory) (n : Nat) : ReadResult :=
  if m.pos + n ≤ m.data.length then
    { bytes := slice m.data m.pos n, err := none,
      mem := { m with pos := m.pos + n, log := m.log ++ [MemEvent.read n] } }
  else
    { bytes := [], err := some Error.ShortRead,
      mem := { m with log := m.log ++ [MemEvent.read n] } }

/-- Modelled from the spec: `shm.Memory.Close`, the explicit release of the
byte source. -/
def Memory.Close (m : Memory) : Memory :=
  { m with log := m.log ++ [MemEvent.close] }

/-! ## `encoding/binary` -/

/-- Go's `binary.BigEndian.Uint32`:
`uint32(b[3]) | uint32(b[2])<<8 | uint32(b[1])<<16 | uint32(b[0])<<24`. -/
def BigEndian.Uint32 (b : List Byte) : Nat :=
  ((b.getD 3 0).val ||| ((b.getD 2 0).val <<< 8) % 2 ^ 32
    ||| ((b.getD 1 0).val <<< 16) % 2 ^ 32
    ||| ((b.getD 0 0).val <<< 24) % 2 ^ 32)

/-- Go's `binary.LittleEndian.Uint64`:
`uint64(b[0]) | uint64(b[1])<<8 | ... | uint64(b[7])<<56`. -/
def LittleEndian.Uint64 (b : List Byte) : Nat :=
  ((b.getD 0 0).val ||| ((b.getD 1 0).val <<< 8) % 2 ^ 64
    ||| ((b.getD 2 0).val <<< 16) % 2 ^ 64
    ||| ((b.getD 3 0).val <<< 24) % 2 ^ 64
    ||| ((b.getD 4 0).val <<< 32) % 2 ^ 64
    ||| ((b.getD 5 0).val <<< 40) % 2 ^ 64
    ||| ((b.getD 6 0).val <<< 48) % 2 ^ 64
    ||| ((b.getD 7 0).val <<< 56) % 2 ^ 64)

/-! ## The typed reads -/

/-- A Go result `(string, error)` together with the byte source afterwards. -/
structure StringResult where
  val : GoString
  err : Option Error
  mem : Memory
  deriving DecidableEq

/-- A Go result `(uint32, error)` or `(float64, error)` together with the
byte source afterwards. -/
structure NumResult where
  val : Nat
  err : Option Error
  mem : Memory
  deriving DecidableEq

/-- The loop of `readString` (lines 114-119), at the state where `b[i:]` is
the first argument and `utf` the second: it runs while `i+(2-1) < len(b)`,
that is while two bytes are left, breaks on `b[i] == 0`, appends `b[i]`
otherwise and steps `i` by 2. -/
def readString.scan : List Byte → List Byte → List Byte
  | b0 :: _ :: rest, utf => if b0 = 0 then utf else readString.scan rest (utf ++ [b0])
  | _, utf => utf

/-- The method `readString` (lines 107-121). -/
def readString (m : Memory) (size : Nat) : StringResult :=
  let rd := m.Read size
  match rd.err with
  | some e => { val := [], err := some e, mem := rd.mem }
  | none => { val := readString.scan rd.bytes [], err := none, mem := rd.mem }

/-- The method `readInt32` (lines 123-130). -/
def readInt32 (m : Memory) : NumResult :=
  let rd := m.Read 4
  match rd.err with
  | some e => { val := 0, err := some e, mem := rd.mem }
  | none => { val := BigEndian.Uint32 rd.bytes, err := none, mem := rd.mem }

/-- The method `readFloat64` (lines 132-141); the value is the bit pattern
handed to `math.Float64frombits`, and the error returned is the `err` of the
read, which is `nil` there. -/
def readFloat64 (m : Memory) : NumResult :=
  let rd := m.Read 8
  match rd.err with
  | some e => { val := 0, err := some e, mem := rd.mem }
  | none => { val := LittleEndian.Uint64 rd.bytes, err := rd.err, mem := rd.mem }

/-! ## Go maps -/

/-- A Go `map[string]V`. -/
structure GoMap (V : Type) where
  entries : List (GoString × V)
  deriving DecidableEq

/-- The map built by `make(map[string]V)`. -/
def GoMap.make {V : Type} : GoMap V := { entries := [] }

/-- The assignment `m[k] = v`. -/
def GoMap.store {V : Type} (m : GoMap V) (k : GoString) (v : V) : GoMap V :=
  { entries := (k, v) :: m.entries.filter (fun p => p.1 ≠ k) }

/-- The lookup `v, ok := m[k]`. -/
def GoMap.find {V : Type} (m : GoMap V) (k : GoString) : Option V :=
  m.entries.lookup k

/-- The builtin `len(m)`. -/
def GoMap.len {V : Type} (m : GoMap V) : Nat := m.entries.length

/-! ## `Stat`, `SensorRecord` and `GetStat` -/

/-- The struct `SensorRecord` (lines 155-160). -/
structure SensorRecord where
  Name : GoString
  Unit : GoString
  Value : Nat
  Digits : Nat
  deriving DecidableEq

/-- The struct `Stat` (lines 144-152). -/
structure Stat where
  Records : GoMap GoString
  SensorRecords : GoMap SensorRecord
  Version : Nat
  Busy : Nat
  LastUpdate : Nat
  AvailableRecords : List GoString
  AvailableSensors : List GoString
  deriving DecidableEq

/-- The state of a run of the reads of `GetStat`: the `stat` built so far,
the error that stopped it, and the byte source. -/
structure Run where
  stat : Stat
  err : Option Error
  mem : Memory
  deriving DecidableEq

/-- Lines 66-69: a record slot with a non-empty key is stored and listed. -/
def GetStat.addRecord (stat : Stat) (key value : GoString) : Stat :=
  if key ≠ [] then
    { stat with
      Records := stat.Records.store key value
      AvailableRecords := stat.AvailableRecords ++ [key] }
  else stat

/-- Lines 95-98: a sensor slot with a non-empty name is stored and listed. -/
def GetStat.addSensor (stat : Stat) (sr : SensorRecord) : Stat :=
  if sr.Name ≠ [] then
    { stat with
      SensorRecords := stat.SensorRecords.store sr.Name sr
      AvailableSensors := stat.AvailableSensors ++ [sr.Name] }
  else stat

/-- The loop of lines 57-70 with `n` iterations left. -/
def GetStat.records : Nat → Stat → Memory → Run
  | 0, stat, m => { stat := stat, err := none, mem := m }
  | n + 1, stat, m =>
    let key := readString m 512
    match key.err with
    | some e => { stat := stat, err := some e, mem := key.mem }
    | none =>
      let value := readString key.mem 512
      match value.err with
      | some e => { stat := stat, err := some e, mem := value.mem }
      | none => GetStat.records n (GetStat.addRecord stat key.val value.val) value.mem

/-- The loop of lines 72-99 with `n` iterations left. -/
def GetStat.sensors : Nat → Stat → Memory → Run
  | 0, stat, m => { stat := stat, err := none, mem := m }
  | n + 1, stat, m =>
    let name := readString m 512
    match name.err with
    | some e => { stat := stat, err := some e, mem := name.mem }
    | none =>
      let unit := readString name.mem 16
      match unit.err with
      | some e => { stat := stat, err := some e, mem := unit.mem }
      | none =>
        let digits := readInt32 unit.mem
        match digits.err with
        | some e => { stat := stat, err := some e, mem := digits.mem }
        | none =>
          let value := readFloat64 digits.mem
          match value.err with
          | some e => { stat := stat, err := some e, mem := value.mem }
          | none =>
            let sr : SensorRecord :=
              { Name := name.val, Unit := unit.val, Digits := digits.val, Value := value.val }
            GetStat.sensors n (GetStat.addSensor stat sr) value.mem

/-- The three header reads of lines 40-55. -/
def GetStat.header (stat : Stat) (m : Memory) : Run :=
  let version := readInt32 m
  match version.err with
  | some e => { stat := stat, err := some e, mem := version.mem }
  | none =>
    let stat1 := { stat with Version := version.val }
    let busy := readInt32 version.mem
    match busy.err with
    | some e => { stat := stat1, err := some e, mem := busy.mem }
    | none =>
      let stat2 := { stat1 with Busy := busy.val }
      let lastUpdate := readInt32 busy.mem
      match lastUpdate.err with
      | some e => { stat := stat2, err := some e, mem := lastUpdate.mem }
      | none => { stat := { stat2 with LastUpdate := lastUpdate.val }, err := none,
                  mem := lastUpdate.mem }

/-- The reads of `GetStat` alone (lines 40-99), before the final check. -/
def GetStat.reads (stat : Stat) (m : Memory) : Run :=
  let h := GetStat.header stat m
  match h.err with
  | some _ => h
  | none =>
    let recs := GetStat.records 128 h.stat h.mem
    match recs.err with
    | some _ => recs
    | none => GetStat.sensors 128 recs.stat recs.mem

/-- Lines 40-104: the reads, then the check that something was decoded. -/
def GetStat.body (stat : Stat) (m : Memory) : Run :=
  let rd := GetStat.reads stat m
  match rd.err with
  | some _ => rd
  | none =>
    if rd.stat.Records.len = 0 ∧ rd.stat.SensorRecords.len = 0 then
      { stat := rd.stat, err := some Error.NoData, mem := rd.mem }
    else { stat := rd.stat, err := none, mem := rd.mem }

/-- The struct `SharedMemory` (lines 11-14); `memory` is `none` for `nil`. -/
structure SharedMemory where
  name : GoString
  memory : Option Memory
  deriving DecidableEq

/-- The function `NewSharedMemory` (lines 17-19). -/
def NewSharedMemory (name : GoString) : SharedMemory :=
  { name := name, memory := none }

/-- The function `DefaultSharedMemory` (lines 22-24): the name is "GPUZShMem". -/
def DefaultSharedMemory : SharedMemory :=
  NewSharedMemory [0x47, 0x50, 0x55, 0x5A, 0x53, 0x68, 0x4D, 0x65, 0x6D]

/-- The size passed to `shm.Open` on line 33. -/
def regionSize : Nat := 4 + 4 + 4 + 1024 * 128 + 624 * 128

/-- Modelled from the spec: `shm.Open` of the package
`github.com/hotafrika/shm`, the byte-source collaborator: given a name and a
size it yields the bytes of a region or fails. -/
abbrev Opener := GoString → Nat → Except Error (List Byte)

/-- What `GetStat` returns, and the receiver after the call. -/
structure GetStatResult where
  stat : Stat
  err : Option Error
  r : SharedMemory

/-- The stat of lines 28-31: two empty maps, everything else zero. -/
def GetStat.initial : Stat :=
  { Records := GoMap.make, SensorRecords := GoMap.make, Version := 0, Busy := 0,
    LastUpdate := 0, AvailableRecords := [], AvailableSensors := [] }

/-- The method `GetStat` (lines 27-105). The deferred `r.memory.Close()` of
line 38 runs on the source after the body has returned. -/
def GetStat (shmOpen : Opener) (r : SharedMemory) : GetStatResult :=
  match shmOpen r.name regionSize with
  | Except.error e => { stat := GetStat.initial, err := some e, r := r }
  | Except.ok data =>
    let run := GetStat.body GetStat.initial (Memory.fresh data)
    { stat := run.stat, err := run.err, r := { r with memory := some run.mem.Close } }

/-- An opener that serves the given bytes under every name. -/
def serving (data : List Byte) : Opener := fun _ _ => Except.ok data

/-! ## Accessors of `Stat` -/

/-- The method `GetRecord` (lines 164-167): the value (`""` when absent) and
whether the title exists. -/
def Stat.GetRecord (s : Stat) (title : GoString) : GoString × Bool :=
  match s.Records.find title with
  | some v => (v, true)
  | none => ([], false)

/-- The zero value of `SensorRecord`. -/
def SensorRecord.zero : SensorRecord := { Name := [], Unit := [], Value := 0, Digits := 0 }

/-- The method `GetSensor` (lines 181-184). -/
def Stat.GetSensor (s : Stat) (title : GoString) : SensorRecord × Bool :=
  match s.SensorRecords.find title with
  | some sr => (sr, true)
  | none => (SensorRecord.zero, false)

/-- The method `GetSensorValue` (lines 171-177). -/
def Stat.GetSensorValue (s : Stat) (title : GoString) : Nat × Bool :=
  let p := s.GetSensor title
  if !p.2 then (0, false) else (p.1.Value, true)

/-- The method `GetAvailableSensors` (lines 187-189). -/
def Stat.GetAvailableSensors (s : Stat) : List GoString := s.AvailableSensors

/-- The method `GetAvailableRecords` (lines 192-194). -/
def Stat.GetAvailableRecords (s : Stat) : List GoString := s.AvailableRecords

/-! ## Layout of the region, as the claims describe it -/

/-- The text of a slot as the claims put it: zero-terminated narrow text. -/
def upToZero (l : List Byte) : List Byte := l.takeWhile (fun b => b ≠ 0)

/-- The bytes of `s` at the even indices `0, 2, 4, ...` below `bound`, in order. -/
def evenIndexBytes (s : List Byte) (bound : Nat) : List Byte :=
  ((List.range bound).filter (fun i => i % 2 = 0)).map (fun i => s.getD i 0)

/-- The text of a slot: the bytes at its even indices, in order, up to but not
including the first of them that is zero. -/
def slotText (s : List Byte) : GoString := upToZero (evenIndexBytes s s.length)

/-- The key of the record slot `i` of a table of 1024-byte slots at `base`:
the text of its first 512 bytes. -/
def recordKeyAt (data : List Byte) (base i : Nat) : GoString :=
  slotText (slice data (base + 1024 * i) 512)

/-- The value of the record slot `i`: the text of the 512 bytes after the key. -/
def recordValueAt (data : List Byte) (base i : Nat) : GoString :=
  slotText (slice data (base + 1024 * i + 512) 512)

/-- The key and value of the first `n` record slots, in slot order. -/
def recordSlots (data : List Byte) (base n : Nat) : List (GoString × GoString) :=
  (List.range n).map (fun i => (recordKeyAt data base i, recordValueAt data base i))

/-- The sensor record laid out at offset `off`: name, unit, digits and value
in the 512, 16, 4 and 8 bytes at relative offsets 0, 512, 528 and 532. -/
def sensorAt (data : List Byte) (off : Nat) : SensorRecord :=
  { Name := slotText (slice data off 512)
    Unit := slotText (slice data (off + 512) 16)
    Digits := BigEndian.Uint32 (slice data (off + 528) 4)
    Value := LittleEndian.Uint64 (slice data (off + 532) 8) }

/-- The records of the first `n` sensor slots of a table at `base` whose slots
are `stride` bytes apart, in slot order. -/
def sensorSlots (data : List Byte) (base stride n : Nat) : List SensorRecord :=
  (List.range n).map (fun k => sensorAt data (base + stride * k))

/-- Storing a sequence of record slots, in order. -/
def addRecords (stat : Stat) (kvs : List (GoString × GoString)) : Stat :=
  kvs.foldl (fun st kv => GetStat.addRecord st kv.1 kv.2) stat

/-- Storing a sequence of sensor slots, in order. -/
def addSensors (stat : Stat) (srs : List SensorRecord) : Stat :=
  srs.foldl GetStat.addSensor stat

/-- The header fields laid out at offset `off`: each of the three big-endian
words that lies wholly inside `data` is taken, the others are left as in `stat`. -/
def headerStat (stat : Stat) (data : List Byte) (off : Nat) : Stat :=
  { stat with
    Version := if off + 4 ≤ data.length then BigEndian.Uint32 (slice data off 4)
      else stat.Version
    Busy := if off + 8 ≤ data.length then BigEndian.Uint32 (slice data (off + 4) 4)
      else stat.Busy
    LastUpdate := if off + 12 ≤ data.length then BigEndian.Uint32 (slice data (off + 8) 4)
      else stat.LastUpdate }

/-- Offset of the record table: after the 12 header bytes. -/
def recordsBase : Nat := 12

/-- Offset of the sensor table: after the header and the 128 record slots. -/
def sensorsBase : Nat := 12 + 128 * 1024

/-- The number of bytes the reads of `GetStat` ask for in all: the header,
128 record slots of 512+512 bytes and 128 sensor slots of 512+16+4+8 bytes. -/
def bytesRead : Nat := 12 + 128 * (512 + 512) + 128 * (512 + 16 + 4 + 8)

/-- The layout of `data` read off directly: the header words, the record slots
and the sensor slots (540 bytes apart) that lie wholly inside `data`. -/
def decodedStat (data : List Byte) : Stat :=
  addSensors
    (addRecords (headerStat GetStat.initial data 0)
      (recordSlots data recordsBase (min 128 ((data.length - recordsBase) / 1024))))
    (sensorSlots data sensorsBase 540 (min 128 ((data.length - sensorsBase) / 540)))

/-- A buffer of `n` bytes, all zero except the byte `b` at offset `off`. -/
def zerosWithByte (n off : Nat) (b : Byte) : List Byte :=
  List.replicate off 0 ++ b :: List.replicate (n - off - 1) 0

/-- The number a `float64` with the given bit pattern stands for (IEEE-754
binary64, as `math.Float64frombits` reads it): sign bit, 11 exponent bits, 52
fraction bits; `none` for the infinities and NaN. -/
def float64Value (bits : Nat) : Option ℚ :=
  let sign : Nat := bits / 2 ^ 63 % 2
  let e : Nat := bits / 2 ^ 52 % 2 ^ 11
  let frac : Nat := bits % 2 ^ 52
  if e = 2047 then none
  else if e = 0 then some ((-1) ^ sign * (frac : ℚ) * 2 ^ (-1074 : ℤ))
  else some ((-1) ^ sign * ((2 ^ 52 + frac : Nat) : ℚ) * 2 ^ ((e : ℤ) - 1075))

/-! ## Properties of a stat and of a history -/

/-- The lookups of a stat agree with its available sequences, and every sensor
record is stored under its own name. -/
def Stat.Consistent (s : Stat) : Prop :=
  (∀ k, s.Records.find k ≠ none ↔ k ∈ s.AvailableRecords) ∧
    (∀ k, s.SensorRecords.find k ≠ none ↔ k ∈ s.AvailableSensors) ∧
    (∀ k sr, s.SensorRecords.find k = some sr → sr.Name = k)

/-- Every event of the history is a read. -/
def readsOnly (l : List MemEvent) : Prop := ∀ e ∈ l, ∃ n, e = MemEvent.read n

/-- A decoded key or name: non-empty, at most 256 bytes, no zero byte. -/
def goodName (k : GoString) : Prop := k ≠ [] ∧ k.length ≤ 256 ∧ (0 : Byte) ∉ k

/-- The size bounds of a stat. -/
def Stat.Bounded (s : Stat) : Prop :=
  s.Records.len ≤ s.AvailableRecords.length ∧
    s.SensorRecords.len ≤ s.AvailableSensors.length ∧
    (∀ k ∈ s.AvailableRecords, goodName k) ∧
    (∀ k ∈ s.AvailableSensors, goodName k) ∧
    (∀ p ∈ s.Records.entries, goodName p.1 ∧ p.2.length ≤ 256) ∧
    (∀ p ∈ s.SensorRecords.entries, goodName p.1 ∧ p.2.Name = p.1 ∧ p.2.Unit.length ≤ 8)

/-! ## Lemmas on the byte source -/

theorem Memory.Read_of_le (m : Memory) (n : Nat) (h : m.pos + n ≤ m.data.length) :
    (m.Read n).err = none ∧ (m.Read n).bytes = slice m.data m.pos n ∧
      (m.Read n).mem.pos = m.pos + n ∧ (m.Read n).mem.data = m.data := by
  simp [Memory.Read, h]

theorem Memory.Read_of_lt (m : Memory) (n : Nat) (h : m.data.length < m.pos + n) :
    (m.Read n).err = some Error.ShortRead ∧ (m.Read n).mem.pos = m.pos ∧
      (m.Read n).mem.data = m.data := by
  have h' : ¬ m.pos + n ≤ m.data.length := by omega
  simp [Memory.Read, h']

theorem slice_length (data : List Byte) (off n : Nat) (h : off + n ≤ data.length) :
    (slice data off n).length = n := by
  simp [slice]; omega

/-! ## Lemmas on `readString` -/

theorem evenIndexBytes_zero (s : List Byte) : evenIndexBytes s 0 = [] := by
  simp [evenIndexBytes]

theorem evenIndexBytes_one (s : List Byte) : evenIndexBytes s 1 = [s.getD 0 0] := by
  simp [evenIndexBytes, List.range_succ]

theorem evenIndexBytes_cons_cons (b0 b1 : Byte) (rest : List Byte) (n : Nat) :
    evenIndexBytes (b0 :: b1 :: rest) (n + 2) = b0 :: evenIndexBytes rest n := by
  unfold evenIndexBytes
  rw [List.range_succ_eq_map, List.range_succ_eq_map]
  simp [List.filter_map, List.map_map, Function.comp_def]
  congr 1
  apply List.filter_congr
  intro i _
  have : (i + 1 + 1) % 2 = i % 2 := by omega
  simp [this]

theorem readString.scan_eq : ∀ (s utf : List Byte),
    readString.scan s utf = utf ++ upToZero (evenIndexBytes s (s.length - 1))
  | [], utf => by simp [readString.scan, evenIndexBytes, upToZero]
  | [_], utf => by simp [readString.scan, evenIndexBytes, upToZero]
  | b0 :: b1 :: rest, utf => by
    have ih := readString.scan_eq rest (utf ++ [b0])
    cases rest with
    | nil =>
      simp [readString.scan, evenIndexBytes_one, upToZero, List.takeWhile]
      by_cases h0 : b0 = 0 <;> simp [h0]
    | cons c rest2 =>
      have hlen : (b0 :: b1 :: c :: rest2).length - 1 = ((c :: rest2).length - 1) + 2 := by
        simp
      rw [hlen, evenIndexBytes_cons_cons]
      rw [readString.scan]
      by_cases h0 : b0 = 0
      · simp [h0, upToZero, List.takeWhile]
      · simp only [h0, if_false, ih]
        simp [upToZero, List.takeWhile, h0]

theorem evenIndexBytes_pred_of_even (s : List Byte) (n : Nat) (h : n % 2 = 0) :
    evenIndexBytes s (n - 1) = evenIndexBytes s n := by
  cases n with
  | zero => rfl
  | succ k =>
    have hk : ¬ k % 2 = 0 := by omega
    simp [evenIndexBytes, List.range_succ, List.filter_append, hk]

theorem readString_of_le (m : Memory) (size : Nat) (h : m.pos + size ≤ m.data.length) :
    (readString m size).err = none ∧
      (readString m size).val
        = upToZero (evenIndexBytes (slice m.data m.pos size) (size - 1)) ∧
      (readString m size).mem.pos = m.pos + size ∧
      (readString m size).mem.data = m.data := by
  obtain ⟨h1, h2, h3, h4⟩ := Memory.Read_of_le m size h
  have hl := slice_length m.data m.pos size h
  simp only [readString, h1, h2, h3, h4, readString.scan_eq, hl, List.nil_append]
  simp

theorem readString_of_lt (m : Memory) (size : Nat) (h : m.data.length < m.pos + size) :
    (readString m size).err = some Error.ShortRead ∧ (readString m size).val = [] ∧
      (readString m size).mem.pos = m.pos ∧ (readString m size).mem.data = m.data := by
  obtain ⟨h1, h2, h3⟩ := Memory.Read_of_lt m size h
  simp only [readString, h1, h2, h3]
  simp

theorem readString_val_scan (m : Memory) (size : Nat) (h : m.pos + size ≤ m.data.length) :
    (readString m size).val = readString.scan (slice m.data m.pos size) [] := by
  obtain ⟨h1, h2, _, _⟩ := Memory.Read_of_le m size h
  simp only [readString, h1, h2]

theorem readString_slot (m : Memory) (size : Nat) (h : m.pos + size ≤ m.data.length)
    (hev : size % 2 = 0) :
    (readString m size).err = none ∧
      (readString m size).val = slotText (slice m.data m.pos size) ∧
      (readString m size).mem.pos = m.pos + size ∧
      (readString m size).mem.data = m.data := by
  obtain ⟨h1, h2, h3, h4⟩ := readString_of_le m size h
  refine ⟨h1, ?_, h3, h4⟩
  rw [h2, slotText, slice_length _ _ _ h, evenIndexBytes_pred_of_even _ _ hev]

theorem readInt32_of_le (m : Memory) (h : m.pos + 4 ≤ m.data.length) :
    (readInt32 m).err = none ∧
      (readInt32 m).val = BigEndian.Uint32 (slice m.data m.pos 4) ∧
      (readInt32 m).mem.pos = m.pos + 4 ∧ (readInt32 m).mem.data = m.data := by
  obtain ⟨h1, h2, h3, h4⟩ := Memory.Read_of_le m 4 h
  simp only [readInt32, h1, h2, h3, h4]
  simp

theorem readInt32_of_lt (m : Memory) (h : m.data.length < m.pos + 4) :
    (readInt32 m).err = some Error.ShortRead ∧ (readInt32 m).val = 0 ∧
      (readInt32 m).mem.pos = m.pos ∧ (readInt32 m).mem.data = m.data := by
  obtain ⟨h1, h2, h3⟩ := Memory.Read_of_lt m 4 h
  simp only [readInt32, h1, h2, h3]
  simp

theorem readFloat64_of_le (m : Memory) (h : m.pos + 8 ≤ m.data.length) :
    (readFloat64 m).err = none ∧
      (readFloat64 m).val = LittleEndian.Uint64 (slice m.data m.pos 8) ∧
      (readFloat64 m).mem.pos = m.pos + 8 ∧ (readFloat64 m).mem.data = m.data := by
  obtain ⟨h1, h2, h3, h4⟩ := Memory.Read_of_le m 8 h
  simp only [readFloat64, h1, h2, h3, h4]
  simp

theorem readFloat64_of_lt (m : Memory) (h : m.data.length < m.pos + 8) :
    (readFloat64 m).err = some Error.ShortRead ∧ (readFloat64 m).val = 0 ∧
      (readFloat64 m).mem.pos = m.pos ∧ (readFloat64 m).mem.data = m.data := by
  obtain ⟨h1, h2, h3⟩ := Memory.Read_of_lt m 8 h
  simp only [readFloat64, h1, h2, h3]
  simp

/-! ## The two loops of `GetStat` -/

theorem recordSlots_zero (data : List Byte) (base : Nat) : recordSlots data base 0 = [] := rfl

theorem recordSlots_succ (data : List Byte) (base n : Nat) :
    recordSlots data base (n + 1)
      = (slotText (slice data base 512), slotText (slice data (base + 512) 512))
        :: recordSlots data (base + 1024) n := by
  unfold recordSlots
  rw [List.range_succ_eq_map]
  simp only [List.map_cons, List.map_map, recordKeyAt, recordValueAt, Nat.mul_zero,
    Nat.add_zero]
  congr 1
  apply List.map_congr_left
  intro i _
  have e : base + 1024 * (i + 1) = base + 1024 + 1024 * i := by omega
  simp only [Function.comp_apply, Nat.succ_eq_add_one, e]

theorem sensorSlots_zero (data : List Byte) (base stride : Nat) :
    sensorSlots data base stride 0 = [] := rfl

theorem sensorSlots_succ (data : List Byte) (base stride n : Nat) :
    sensorSlots data base stride (n + 1)
      = sensorAt data base :: sensorSlots data (base + stride) stride n := by
  unfold sensorSlots
  rw [List.range_succ_eq_map]
  simp only [List.map_cons, List.map_map, Nat.mul_zero, Nat.add_zero]
  congr 1
  apply List.map_congr_left
  intro i _
  have e : base + stride * (i + 1) = base + stride + stride * i := by
    rw [Nat.mul_succ]; omega
  simp only [Function.comp_apply, Nat.succ_eq_add_one, e]

/-- The record loop: it stores the complete slots that fit in the bytes left,
and runs to its end exactly when all of its `n` slots fit. -/
theorem GetStat.records_spec (n : Nat) : ∀ (stat : Stat) (m : Memory),
    (GetStat.records n stat m).stat
        = addRecords stat (recordSlots m.data m.pos (min n ((m.data.length - m.pos) / 1024))) ∧
      (GetStat.records n stat m).mem.data = m.data ∧
      (m.pos + 1024 * n ≤ m.data.length →
        (GetStat.records n stat m).err = none ∧
          (GetStat.records n stat m).mem.pos = m.pos + 1024 * n) ∧
      (m.data.length < m.pos + 1024 * n → m.pos ≤ m.data.length →
        (GetStat.records n stat m).err = some Error.ShortRead) := by
  induction n with
  | zero =>
    intro stat m
    refine ⟨?_, ?_, ?_, ?_⟩
    · simp [GetStat.records, recordSlots, addRecords]
    · simp [GetStat.records]
    · intro _; simp [GetStat.records]
    · intro h1 h2; omega
  | succ n ih =>
    intro stat m
    by_cases hk : m.pos + 512 ≤ m.data.length
    · obtain ⟨k1, k2, k3, k4⟩ := readString_slot m 512 hk (by decide)
      by_cases hv : m.pos + 1024 ≤ m.data.length
      · have hv' : (readString m 512).mem.pos + 512 ≤ (readString m 512).mem.data.length := by
          rw [k3, k4]; omega
        obtain ⟨v1, v2, v3, v4⟩ := readString_slot _ 512 hv' (by decide)
        obtain ⟨i1, i2, i3, i4⟩ := ih
          (GetStat.addRecord stat (readString m 512).val
            (readString (readString m 512).mem 512).val)
          (readString (readString m 512).mem 512).mem
        have hq : min (n + 1) ((m.data.length - m.pos) / 1024)
            = min n ((m.data.length - (m.pos + 512 + 512)) / 1024) + 1 := by
          omega
        simp only [GetStat.records, k1, v1]
        simp only [v3, v4, k3, k4] at i1 i2 i3 i4 v2
        refine ⟨?_, i2, ?_, ?_⟩
        · rw [i1, hq, recordSlots_succ, k2, v2]
          simp only [addRecords, List.foldl_cons, Nat.add_assoc]
        · intro hle
          have := i3 (by omega)
          refine ⟨this.1, ?_⟩
          rw [this.2]; omega
        · intro hlt _
          exact i4 (by omega) (by omega)
      · have hv' : (readString m 512).mem.data.length < (readString m 512).mem.pos + 512 := by
          rw [k3, k4]; omega
        obtain ⟨v1, _, v3, v4⟩ := readString_of_lt _ 512 hv'
        have hq : min (n + 1) ((m.data.length - m.pos) / 1024) = 0 := by omega
        simp only [GetStat.records, k1, v1, hq, recordSlots_zero]
        refine ⟨rfl, ?_, ?_, ?_⟩
        · rw [v4, k4]
        · intro hle; omega
        · intro _ _; trivial
    · obtain ⟨k1, _, k3, k4⟩ := readString_of_lt m 512 (by omega)
      have hq : min (n + 1) ((m.data.length - m.pos) / 1024) = 0 := by omega
      simp only [GetStat.records, k1, hq, recordSlots_zero]
      refine ⟨rfl, k4, ?_, ?_⟩
      · intro hle; omega
      · intro _ _; trivial

/-- The sensor loop: it stores the complete 540-byte slots that fit in the
bytes left, and runs to its end exactly when all of its `n` slots fit. -/
theorem GetStat.sensors_spec (n : Nat) : ∀ (stat : Stat) (m : Memory),
    (GetStat.sensors n stat m).stat
        = addSensors stat
            (sensorSlots m.data m.pos 540 (min n ((m.data.length - m.pos) / 540))) ∧
      (GetStat.sensors n stat m).mem.data = m.data ∧
      (m.pos + 540 * n ≤ m.data.length →
        (GetStat.sensors n stat m).err = none ∧
          (GetStat.sensors n stat m).mem.pos = m.pos + 540 * n) ∧
      (m.data.length < m.pos + 540 * n → m.pos ≤ m.data.length →
        (GetStat.sensors n stat m).err = some Error.ShortRead) := by
  induction n with
  | zero =>
    intro stat m
    refine ⟨?_, ?_, ?_, ?_⟩
    · simp [GetStat.sensors, sensorSlots, addSensors]
    · simp [GetStat.sensors]
    · intro _; simp [GetStat.sensors]
    · intro h1 h2; omega
  | succ n ih =>
    intro stat m
    by_cases hn : m.pos + 512 ≤ m.data.length
    · obtain ⟨n1, n2, n3, n4⟩ := readString_slot m 512 hn (by decide)
      by_cases hu : m.pos + 528 ≤ m.data.length
      · have hu' : (readString m 512).mem.pos + 16 ≤ (readString m 512).mem.data.length := by
          rw [n3, n4]; omega
        obtain ⟨u1, u2, u3, u4⟩ := readString_slot _ 16 hu' (by decide)
        by_cases hd : m.pos + 532 ≤ m.data.length
        · have hd' : (readString (readString m 512).mem 16).mem.pos + 4
              ≤ (readString (readString m 512).mem 16).mem.data.length := by
            rw [u3, u4, n3, n4]; omega
          obtain ⟨d1, d2, d3, d4⟩ := readInt32_of_le _ hd'
          by_cases hf : m.pos + 540 ≤ m.data.length
          · have hf' : (readInt32 (readString (readString m 512).mem 16).mem).mem.pos + 8
                ≤ (readInt32 (readString (readString m 512).mem 16).mem).mem.data.length := by
              rw [d3, d4, u3, u4, n3, n4]; omega
            obtain ⟨f1, f2, f3, f4⟩ := readFloat64_of_le _ hf'
            obtain ⟨i1, i2, i3, i4⟩ := ih
              (GetStat.addSensor stat
                { Name := (readString m 512).val
                  Unit := (readString (readString m 512).mem 16).val
                  Digits := (readInt32 (readString (readString m 512).mem 16).mem).val
                  Value := (readFloat64
                    (readInt32 (readString (readString m 512).mem 16).mem).mem).val })
              (readFloat64 (readInt32 (readString (readString m 512).mem 16).mem).mem).mem
            have hq : min (n + 1) ((m.data.length - m.pos) / 540)
                = min n ((m.data.length - (m.pos + 512 + 16 + 4 + 8)) / 540) + 1 := by
              omega
            simp only [GetStat.sensors, n1, u1, d1, f1]
            simp only [f3, f4, d3, d4, u3, u4, n3, n4] at i1 i2 i3 i4 u2 d2 f2
            refine ⟨?_, i2, ?_, ?_⟩
            · rw [i1, hq, sensorSlots_succ, n2, u2, d2, f2]
              simp only [addSensors, List.foldl_cons, sensorAt, Nat.add_assoc]
            · intro hle
              have := i3 (by omega)
              refine ⟨this.1, ?_⟩
              rw [this.2]; omega
            · intro hlt _
              exact i4 (by omega) (by omega)
          · have hf' : (readInt32 (readString (readString m 512).mem 16).mem).mem.data.length
                < (readInt32 (readString (readString m 512).mem 16).mem).mem.pos + 8 := by
              rw [d3, d4, u3, u4, n3, n4]; omega
            obtain ⟨f1, _, f3, f4⟩ := readFloat64_of_lt _ hf'
            have hq : min (n + 1) ((m.data.length - m.pos) / 540) = 0 := by omega
            simp only [GetStat.sensors, n1, u1, d1, f1, hq, sensorSlots_zero]
            refine ⟨rfl, ?_, ?_, ?_⟩
            · rw [f4, d4, u4, n4]
            · intro hle; omega
            · intro _ _; trivial
        · have hd' : (readString (readString m 512).mem 16).mem.data.length
              < (readString (readString m 512).mem 16).mem.pos + 4 := by
            rw [u3, u4, n3, n4]; omega
          obtain ⟨d1, _, d3, d4⟩ := readInt32_of_lt _ hd'
          have hq : min (n + 1) ((m.data.length - m.pos) / 540) = 0 := by omega
          simp only [GetStat.sensors, n1, u1, d1, hq, sensorSlots_zero]
          refine ⟨rfl, ?_, ?_, ?_⟩
          · rw [d4, u4, n4]
          · intro hle; omega
          · intro _ _; trivial
      · have hu' : (readString m 512).mem.data.length < (readString m 512).mem.pos + 16 := by
          rw [n3, n4]; omega
        obtain ⟨u1, _, u3, u4⟩ := readString_of_lt _ 16 hu'
        have hq : min (n + 1) ((m.data.length - m.pos) / 540) = 0 := by omega
        simp only [GetStat.sensors, n1, u1, hq, sensorSlots_zero]
        refine ⟨rfl, ?_, ?_, ?_⟩
        · rw [u4, n4]
        · intro hle; omega
        · intro _ _; trivial
    · obtain ⟨n1, _, n3, n4⟩ := readString_of_lt m 512 (by omega)
      have hq : min (n + 1) ((m.data.length - m.pos) / 540) = 0 := by omega
      simp only [GetStat.sensors, n1, hq, sensorSlots_zero]
      refine ⟨rfl, n4, ?_, ?_⟩
      · intro hle; omega
      · intro _ _; trivial

/-- The header reads: every word that fits is stored; they all succeed
exactly when 12 bytes are left. -/
theorem GetStat.header_spec (stat : Stat) (m : Memory) :
    (GetStat.header stat m).stat = headerStat stat m.data m.pos ∧
      (GetStat.header stat m).mem.data = m.data ∧
      (m.pos + 12 ≤ m.data.length →
        (GetStat.header stat m).err = none ∧ (GetStat.header stat m).mem.pos = m.pos + 12) ∧
      (m.data.length < m.pos + 12 →
        (GetStat.header stat m).err = some Error.ShortRead) := by
  by_cases hv : m.pos + 4 ≤ m.data.length
  · obtain ⟨v1, v2, v3, v4⟩ := readInt32_of_le m hv
    by_cases hb : m.pos + 8 ≤ m.data.length
    · have hb' : (readInt32 m).mem.pos + 4 ≤ (readInt32 m).mem.data.length := by
        rw [v3, v4]; omega
      obtain ⟨b1, b2, b3, b4⟩ := readInt32_of_le _ hb'
      by_cases hl : m.pos + 12 ≤ m.data.length
      · have hl' : (readInt32 (readInt32 m).mem).mem.pos + 4
            ≤ (readInt32 (readInt32 m).mem).mem.data.length := by
          rw [b3, b4, v3, v4]; omega
        obtain ⟨l1, l2, l3, l4⟩ := readInt32_of_le _ hl'
        simp only [b3, b4, v3, v4] at b2 l2 l3 l4
        simp only [GetStat.header, v1, b1, l1]
        refine ⟨?_, l4, ?_, ?_⟩
        · simp only [headerStat, hv, hb, hl, if_true]
          rw [v2, b2, l2]
        · intro _; exact ⟨trivial, by rw [l3]⟩
        · intro h; omega
      · have hl' : (readInt32 (readInt32 m).mem).mem.data.length
            < (readInt32 (readInt32 m).mem).mem.pos + 4 := by
          rw [b3, b4, v3, v4]; omega
        obtain ⟨l1, _, l3, l4⟩ := readInt32_of_lt _ hl'
        simp only [b3, b4, v3, v4] at b2 l3 l4
        simp only [GetStat.header, v1, b1, l1]
        refine ⟨?_, l4, ?_, ?_⟩
        · simp only [headerStat, hv, hb, hl, if_true, if_false]
          rw [v2, b2]
        · intro h; omega
        · intro _; trivial
    · have hb' : (readInt32 m).mem.data.length < (readInt32 m).mem.pos + 4 := by
        rw [v3, v4]; omega
      obtain ⟨b1, _, b3, b4⟩ := readInt32_of_lt _ hb'
      have hl : ¬ m.pos + 12 ≤ m.data.length := by omega
      simp only [v3, v4] at b3 b4
      simp only [GetStat.header, v1, b1]
      refine ⟨?_, b4, ?_, ?_⟩
      · simp only [headerStat, hv, hb, hl, if_true, if_false]
        rw [v2]
      · intro h; omega
      · intro _; trivial
  · obtain ⟨v1, _, v3, v4⟩ := readInt32_of_lt m (by omega)
    have hb : ¬ m.pos + 8 ≤ m.data.length := by omega
    have hl : ¬ m.pos + 12 ≤ m.data.length := by omega
    simp only [GetStat.header, v1]
    refine ⟨?_, v4, ?_, ?_⟩
    · simp only [headerStat, hv, hb, hl, if_false]
    · intro h; omega
    · intro _; trivial

/-- The reads of `GetStat` on a fresh source: the stat holds exactly what lies
wholly inside the bytes, and no read fails exactly when `bytesRead` bytes are
there. -/
theorem GetStat.reads_spec (data : List Byte) :
    (GetStat.reads GetStat.initial (Memory.fresh data)).stat = decodedStat data ∧
      (GetStat.reads GetStat.initial (Memory.fresh data)).mem.data = data ∧
      (bytesRead ≤ data.length →
        (GetStat.reads GetStat.initial (Memory.fresh data)).err = none ∧
          (GetStat.reads GetStat.initial (Memory.fresh data)).mem.pos = bytesRead) ∧
      (data.length < bytesRead →
        (GetStat.reads GetStat.initial (Memory.fresh data)).err = some Error.ShortRead) := by
  obtain ⟨h1, h2, h3, h4⟩ := GetStat.header_spec GetStat.initial (Memory.fresh data)
  have fd : (Memory.fresh data).data = data := rfl
  have fp : (Memory.fresh data).pos = 0 := rfl
  simp only [fd, fp, Nat.zero_add] at h1 h2 h3 h4
  simp only [GetStat.reads]
  generalize GetStat.header GetStat.initial (Memory.fresh data) = H at h1 h2 h3 h4 ⊢
  by_cases hh : 12 ≤ data.length
  · obtain ⟨he, hp⟩ := h3 hh
    obtain ⟨Hs, He, ⟨Hd, Hp, Hl⟩⟩ := H
    simp only at h1 h2 he hp
    subst h1 he hp
    subst h2
    obtain ⟨r1, r2, r3, r4⟩ := GetStat.records_spec 128 (headerStat GetStat.initial Hd 0)
      { data := Hd, pos := 12, log := Hl }
    simp only at r1 r2 r3 r4 ⊢
    generalize GetStat.records 128 (headerStat GetStat.initial Hd 0)
      { data := Hd, pos := 12, log := Hl } = R at r1 r2 r3 r4 ⊢
    by_cases hr : 12 + 1024 * 128 ≤ Hd.length
    · obtain ⟨re, rp⟩ := r3 hr
      obtain ⟨Rs, Re, ⟨Rd, Rp, Rl⟩⟩ := R
      simp only at r1 r2 re rp
      subst r1 re rp
      subst r2
      obtain ⟨s1, s2, s3, s4⟩ := GetStat.sensors_spec 128
        (addRecords (headerStat GetStat.initial Rd 0)
          (recordSlots Rd 12 (min 128 ((Rd.length - 12) / 1024))))
        { data := Rd, pos := 12 + 1024 * 128, log := Rl }
      simp only at s1 s2 s3 s4 ⊢
      refine ⟨?_, s2, ?_, ?_⟩
      · rw [s1]; rfl
      · intro hle
        simp only [bytesRead] at hle
        obtain ⟨se, sp⟩ := s3 (by omega)
        exact ⟨se, by rw [sp]; rfl⟩
      · intro hlt
        simp only [bytesRead] at hlt
        exact s4 (by omega) (by omega)
    · have re := r4 (by omega) (by omega)
      have hq : min 128 ((Hd.length - sensorsBase) / 540) = 0 := by
        simp only [sensorsBase]; omega
      simp only [re, decodedStat, hq, sensorSlots_zero]
      refine ⟨?_, r2, ?_, ?_⟩
      · rw [r1]; rfl
      · intro hle; simp only [bytesRead] at hle; omega
      · intro _; trivial
  · have he := h4 (by omega)
    have hq1 : min 128 ((data.length - recordsBase) / 1024) = 0 := by
      simp only [recordsBase]; omega
    have hq2 : min 128 ((data.length - sensorsBase) / 540) = 0 := by
      simp only [sensorsBase]; omega
    simp only [he, decodedStat, hq1, hq2, sensorSlots_zero, recordSlots_zero]
    refine ⟨?_, h2, ?_, ?_⟩
    · rw [h1]; rfl
    · intro hle; simp only [bytesRead] at hle; omega
    · intro _; trivial

/-- The body of `GetStat` on a fresh source. -/
theorem GetStat.body_spec (data : List Byte) :
    (GetStat.body GetStat.initial (Memory.fresh data)).stat = decodedStat data ∧
      (GetStat.body GetStat.initial (Memory.fresh data)).mem.data = data ∧
      (data.length < bytesRead →
        (GetStat.body GetStat.initial (Memory.fresh data)).err = some Error.ShortRead) ∧
      (bytesRead ≤ data.length →
        (GetStat.body GetStat.initial (Memory.fresh data)).mem.pos = bytesRead ∧
        (GetStat.body GetStat.initial (Memory.fresh data)).err
          = if (decodedStat data).Records.len = 0 ∧ (decodedStat data).SensorRecords.len = 0
            then some Error.NoData else none) := by
  obtain ⟨h1, h2, h3, h4⟩ := GetStat.reads_spec data
  simp only [GetStat.body]
  generalize GetStat.reads GetStat.initial (Memory.fresh data) = R at h1 h2 h3 h4 ⊢
  obtain ⟨Rs, Re, Rm⟩ := R
  simp only at h1 h2 h3 h4
  subst h1
  by_cases hl : bytesRead ≤ data.length
  · obtain ⟨he, hp⟩ := h3 hl
    subst he
    simp only
    refine ⟨?_, ?_, ?_, ?_⟩
    · split <;> rfl
    · split <;> exact h2
    · intro h; omega
    · intro _
      refine ⟨?_, ?_⟩
      · split <;> exact hp
      · split <;> rfl
  · have he := h4 (by omega)
    subst he
    simp only
    refine ⟨trivial, h2, ?_, ?_⟩
    · intro _; trivial
    · intro h; omega

/-- What `GetStat` returns when `shm.Open` yields the bytes `data`. -/
theorem GetStat_of_open (shmOpen : Opener) (r : SharedMemory) (data : List Byte)
    (hopen : shmOpen r.name regionSize = Except.ok data) :
    (GetStat shmOpen r).stat = decodedStat data ∧
      (GetStat shmOpen r).err = (GetStat.body GetStat.initial (Memory.fresh data)).err ∧
      (GetStat shmOpen r).r.memory
        = some (GetStat.body GetStat.initial (Memory.fresh data)).mem.Close := by
  simp only [GetStat, hopen]
  exact ⟨(GetStat.body_spec data).1, trivial, trivial⟩

/-! ## Go maps and the two stores -/

theorem GoMap.find_store_self {V : Type} (m : GoMap V) (k : GoString) (v : V) :
    (m.store k v).find k = some v := by
  simp [GoMap.store, GoMap.find, List.lookup]

theorem lookup_filter_ne {V : Type} (l : List (GoString × V)) (k k2 : GoString)
    (h : k2 ≠ k) : (l.filter (fun p => p.1 ≠ k)).lookup k2 = l.lookup k2 := by
  induction l with
  | nil => rfl
  | cons p t ih =>
    obtain ⟨a, b⟩ := p
    by_cases ha : a = k
    · have hne : (k2 == a) = false := by
        simp only [beq_eq_false_iff_ne, ne_eq]; rw [ha]; exact h
      simp only [List.filter, ha, ne_eq, not_true_eq_false, decide_False, List.lookup]
      rw [← ha, hne]
      simpa [ha] using ih
    · simp only [List.filter, ha, ne_eq, not_false_eq_true, decide_True, List.lookup]
      rw [ih]

theorem GoMap.find_store_ne {V : Type} (m : GoMap V) (k k2 : GoString) (v : V)
    (h : k2 ≠ k) : (m.store k v).find k2 = m.find k2 := by
  have hne : (k2 == k) = false := by simpa using h
  simp only [GoMap.store, GoMap.find, List.lookup, hne]
  exact lookup_filter_ne m.entries k k2 h

theorem GoMap.len_store {V : Type} (m : GoMap V) (k : GoString) (v : V) :
    (m.store k v).len ≠ 0 := by
  simp [GoMap.store, GoMap.len]

theorem addRecords_nil (stat : Stat) : addRecords stat [] = stat := rfl

theorem addRecords_cons (stat : Stat) (kv : GoString × GoString)
    (t : List (GoString × GoString)) :
    addRecords stat (kv :: t) = addRecords (GetStat.addRecord stat kv.1 kv.2) t := rfl

theorem addRecords_append (stat : Stat) (l1 l2 : List (GoString × GoString)) :
    addRecords stat (l1 ++ l2) = addRecords (addRecords stat l1) l2 := by
  simp [addRecords, List.foldl_append]

theorem addSensors_nil (stat : Stat) : addSensors stat [] = stat := rfl

theorem addSensors_cons (stat : Stat) (sr : SensorRecord) (t : List SensorRecord) :
    addSensors stat (sr :: t) = addSensors (GetStat.addSensor stat sr) t := rfl

theorem addSensors_append (stat : Stat) (l1 l2 : List SensorRecord) :
    addSensors stat (l1 ++ l2) = addSensors (addSensors stat l1) l2 := by
  simp [addSensors, List.foldl_append]

/-- Storing records leaves the header and the sensor side of the stat alone. -/
theorem addRecords_frame (kvs : List (GoString × GoString)) : ∀ stat : Stat,
    (addRecords stat kvs).Version = stat.Version ∧
      (addRecords stat kvs).Busy = stat.Busy ∧
      (addRecords stat kvs).LastUpdate = stat.LastUpdate ∧
      (addRecords stat kvs).SensorRecords = stat.SensorRecords ∧
      (addRecords stat kvs).AvailableSensors = stat.AvailableSensors := by
  induction kvs with
  | nil => intro stat; exact ⟨rfl, rfl, rfl, rfl, rfl⟩
  | cons kv t ih =>
    intro stat
    rw [addRecords_cons]
    obtain ⟨h1, h2, h3, h4, h5⟩ := ih (GetStat.addRecord stat kv.1 kv.2)
    rw [h1, h2, h3, h4, h5]
    unfold GetStat.addRecord
    split <;> exact ⟨rfl, rfl, rfl, rfl, rfl⟩

/-- Storing sensors leaves the header and the record side of the stat alone. -/
theorem addSensors_frame (srs : List SensorRecord) : ∀ stat : Stat,
    (addSensors stat srs).Version = stat.Version ∧
      (addSensors stat srs).Busy = stat.Busy ∧
      (addSensors stat srs).LastUpdate = stat.LastUpdate ∧
      (addSensors stat srs).Records = stat.Records ∧
      (addSensors stat srs).AvailableRecords = stat.AvailableRecords := by
  induction srs with
  | nil => intro stat; exact ⟨rfl, rfl, rfl, rfl, rfl⟩
  | cons sr t ih =>
    intro stat
    rw [addSensors_cons]
    obtain ⟨h1, h2, h3, h4, h5⟩ := ih (GetStat.addSensor stat sr)
    rw [h1, h2, h3, h4, h5]
    unfold GetStat.addSensor
    split <;> exact ⟨rfl, rfl, rfl, rfl, rfl⟩

/-- The available records after storing: the non-empty keys, in order. -/
theorem addRecords_available (kvs : List (GoString × GoString)) : ∀ stat : Stat,
    (addRecords stat kvs).AvailableRecords
      = stat.AvailableRecords ++ (kvs.map Prod.fst).filter (fun k => k ≠ []) := by
  induction kvs with
  | nil => intro stat; simp [addRecords_nil]
  | cons kv t ih =>
    intro stat
    rw [addRecords_cons, ih]
    by_cases hk : kv.1 = []
    · simp [GetStat.addRecord, hk]
    · simp [GetStat.addRecord, hk]

/-- The available sensors after storing: the non-empty names, in order. -/
theorem addSensors_available (srs : List SensorRecord) : ∀ stat : Stat,
    (addSensors stat srs).AvailableSensors
      = stat.AvailableSensors ++ (srs.map SensorRecord.Name).filter (fun k => k ≠ []) := by
  induction srs with
  | nil => intro stat; simp [addSensors_nil]
  | cons sr t ih =>
    intro stat
    rw [addSensors_cons, ih]
    by_cases hk : sr.Name = []
    · simp [GetStat.addSensor, hk]
    · simp [GetStat.addSensor, hk]

/-- The record map stays empty exactly when every key stored is empty. -/
theorem addRecords_len_zero (kvs : List (GoString × GoString)) : ∀ stat : Stat,
    ((addRecords stat kvs).Records.len = 0 ↔
      stat.Records.len = 0 ∧ ∀ kv ∈ kvs, kv.1 = []) := by
  induction kvs with
  | nil => intro stat; simp [addRecords_nil]
  | cons kv t ih =>
    intro stat
    rw [addRecords_cons, ih]
    by_cases hk : kv.1 = []
    · simp [GetStat.addRecord, hk]
    · have := GoMap.len_store stat.Records kv.1 kv.2
      simp [GetStat.addRecord, hk, this]

/-- The sensor map stays empty exactly when every name stored is empty. -/
theorem addSensors_len_zero (srs : List SensorRecord) : ∀ stat : Stat,
    ((addSensors stat srs).SensorRecords.len = 0 ↔
      stat.SensorRecords.len = 0 ∧ ∀ sr ∈ srs, sr.Name = []) := by
  induction srs with
  | nil => intro stat; simp [addSensors_nil]
  | cons sr t ih =>
    intro stat
    rw [addSensors_cons, ih]
    by_cases hk : sr.Name = []
    · simp [GetStat.addSensor, hk]
    · have := GoMap.len_store stat.SensorRecords sr.Name sr
      simp [GetStat.addSensor, hk, this]

theorem addRecord_find (st : Stat) (k v k2 : GoString) :
    (GetStat.addRecord st k v).Records.find k2
      = if k ≠ [] ∧ k2 = k then some v else st.Records.find k2 := by
  by_cases hk : k = []
  · simp [GetStat.addRecord, hk]
  · by_cases h2 : k2 = k
    · subst h2
      simp [GetStat.addRecord, hk, GoMap.find_store_self]
    · simp [GetStat.addRecord, hk, h2, GoMap.find_store_ne]

theorem recordSlots_succ_last (data : List Byte) (base n : Nat) :
    recordSlots data base (n + 1)
      = recordSlots data base n ++ [(recordKeyAt data base n, recordValueAt data base n)] := by
  simp [recordSlots, List.range_succ]

theorem sensorSlots_succ_last (data : List Byte) (base stride n : Nat) :
    sensorSlots data base stride (n + 1)
      = sensorSlots data base stride n ++ [sensorAt data (base + stride * n)] := by
  simp [sensorSlots, List.range_succ]

/-- A key that no slot carries is looked up as before the slots were stored. -/
theorem recordSlots_find_absent (data : List Byte) (base : Nat) (stat : Stat) (k : GoString) :
    ∀ n : Nat, (∀ j, j < n → recordKeyAt data base j ≠ k) →
      (addRecords stat (recordSlots data base n)).Records.find k = stat.Records.find k := by
  intro n
  induction n with
  | zero => intro _; rfl
  | succ n ih =>
    intro h
    rw [recordSlots_succ_last, addRecords_append, addRecords_cons, addRecords_nil,
      addRecord_find]
    have hn : ¬ k = recordKeyAt data base n := fun e => h n (Nat.lt_succ_self n) e.symm
    simp only [hn, and_false, if_false]
    exact ih (fun j hj => h j (Nat.lt_succ_of_lt hj))

/-- Last slot wins: a non-empty key maps to the value of the highest slot
that carries it. -/
theorem recordSlots_find_last (data : List Byte) (base : Nat) (stat : Stat) (i : Nat) :
    ∀ n : Nat, i < n → recordKeyAt data base i ≠ [] →
      (∀ j, i < j → j < n → recordKeyAt data base j ≠ recordKeyAt data base i) →
      (addRecords stat (recordSlots data base n)).Records.find (recordKeyAt data base i)
        = some (recordValueAt data base i) := by
  intro n
  induction n with
  | zero => intro h; omega
  | succ n ih =>
    intro hin hk hlast
    rw [recordSlots_succ_last, addRecords_append, addRecords_cons, addRecords_nil,
      addRecord_find]
    by_cases e : i = n
    · subst e
      simp [hk]
    · have hlt : i < n := by omega
      have hn : ¬ recordKeyAt data base i = recordKeyAt data base n :=
        fun e2 => hlast n hlt (Nat.lt_succ_self n) e2.symm
      simp only [hn, and_false, if_false]
      exact ih hlt hk (fun j h1 h2 => hlast j h1 (Nat.lt_succ_of_lt h2))

/-- Every slot with a non-empty key is retained: its key maps to the value of
a slot at or after it that carries the same key. -/
theorem recordSlots_find_some (data : List Byte) (base : Nat) (stat : Stat) (j : Nat) :
    ∀ n : Nat, j < n → recordKeyAt data base j ≠ [] →
      ∃ i, j ≤ i ∧ i < n ∧ recordKeyAt data base i = recordKeyAt data base j ∧
        (addRecords stat (recordSlots data base n)).Records.find (recordKeyAt data base j)
          = some (recordValueAt data base i) := by
  intro n
  induction n with
  | zero => intro h; omega
  | succ n ih =>
    intro hjn hk
    rw [recordSlots_succ_last, addRecords_append, addRecords_cons, addRecords_nil,
      addRecord_find]
    by_cases e : recordKeyAt data base j = recordKeyAt data base n
    · refine ⟨n, by omega, Nat.lt_succ_self n, e.symm, ?_⟩
      have hkn : recordKeyAt data base n ≠ [] := by rw [← e]; exact hk
      simp [hkn, e]
    · have hlt : j < n := by
        rcases Nat.lt_or_eq_of_le (Nat.le_of_lt_succ hjn) with h | h
        · exact h
        · subst h; exact absurd rfl e
      obtain ⟨i, h1, h2, h3, h4⟩ := ih hlt hk
      refine ⟨i, h1, Nat.lt_succ_of_lt h2, h3, ?_⟩
      simp only [e, and_false, if_false]
      exact h4

/-- On a buffer that holds all the bytes read, every slot is decoded. -/
theorem decodedStat_full (data : List Byte) (h : bytesRead ≤ data.length) :
    decodedStat data
      = addSensors (addRecords (headerStat GetStat.initial data 0) (recordSlots data 12 128))
          (sensorSlots data sensorsBase 540 128) := by
  simp only [bytesRead] at h
  have h1 : min 128 ((data.length - 12) / 1024) = 128 := by omega
  have h2 : min 128 ((data.length - sensorsBase) / 540) = 128 := by
    simp only [sensorsBase]; omega
  simp only [decodedStat, recordsBase, h1, h2]

theorem decodedStat_available_records (data : List Byte) (h : bytesRead ≤ data.length) :
    (decodedStat data).AvailableRecords
      = ((List.range 128).map (fun i => recordKeyAt data 12 i)).filter (fun k => k ≠ []) := by
  rw [decodedStat_full data h, (addSensors_frame _ _).2.2.2.2, addRecords_available]
  simp [headerStat, GetStat.initial, recordSlots, List.map_map, Function.comp_def]

theorem decodedStat_available_sensors (data : List Byte) (h : bytesRead ≤ data.length) :
    (decodedStat data).AvailableSensors
      = ((List.range 128).map (fun k => (sensorAt data (sensorsBase + 540 * k)).Name)).filter
          (fun k => k ≠ []) := by
  rw [decodedStat_full data h, addSensors_available, (addRecords_frame _ _).2.2.2.2]
  simp [headerStat, GetStat.initial, sensorSlots, List.map_map, Function.comp_def]

theorem decodedStat_records (data : List Byte) (h : bytesRead ≤ data.length) :
    (decodedStat data).Records
      = (addRecords (headerStat GetStat.initial data 0) (recordSlots data 12 128)).Records := by
  rw [decodedStat_full data h, (addSensors_frame _ _).2.2.2.1]

/-- The header fields of the decoded stat are those of the header alone. -/
theorem decodedStat_header (data : List Byte) :
    (decodedStat data).Version = (headerStat GetStat.initial data 0).Version ∧
      (decodedStat data).Busy = (headerStat GetStat.initial data 0).Busy ∧
      (decodedStat data).LastUpdate = (headerStat GetStat.initial data 0).LastUpdate := by
  unfold decodedStat
  obtain ⟨a1, a2, a3, _, _⟩ := addSensors_frame
    (sensorSlots data sensorsBase 540 (min 128 ((data.length - sensorsBase) / 540)))
    (addRecords (headerStat GetStat.initial data 0)
      (recordSlots data recordsBase (min 128 ((data.length - recordsBase) / 1024))))
  obtain ⟨b1, b2, b3, _, _⟩ := addRecords_frame
    (recordSlots data recordsBase (min 128 ((data.length - recordsBase) / 1024)))
    (headerStat GetStat.initial data 0)
  exact ⟨a1.trans b1, a2.trans b2, a3.trans b3⟩

/-- Whether the two maps of the decoded stat are empty, read off the slots. -/
theorem decodedStat_empty_iff (data : List Byte) (h : bytesRead ≤ data.length) :
    ((decodedStat data).Records.len = 0 ∧ (decodedStat data).SensorRecords.len = 0) ↔
      ((∀ i, i < 128 → recordKeyAt data 12 i = []) ∧
        (∀ k, k < 128 → (sensorAt data (sensorsBase + 540 * k)).Name = [])) := by
  rw [decodedStat_records data h, decodedStat_full data h, addRecords_len_zero,
    addSensors_len_zero, (addRecords_frame _ _).2.2.2.1]
  simp [headerStat, GetStat.initial, GoMap.make, GoMap.len, recordSlots, sensorSlots]

/-! ## Empty texts and the outcome of `GetStat` -/

theorem evenIndexBytes_succ_head (s : List Byte) (n : Nat) :
    ∃ t, evenIndexBytes s (n + 1) = s.getD 0 0 :: t := by
  unfold evenIndexBytes
  rw [List.range_succ_eq_map]
  simp [List.filter_cons]

/-- A slot decodes to the empty text exactly when its first byte is zero
(or it has no byte at all). -/
theorem slotText_eq_nil_iff (s : List Byte) : slotText s = [] ↔ s.getD 0 0 = 0 := by
  cases s with
  | nil => simp [slotText, evenIndexBytes, upToZero]
  | cons b t =>
    obtain ⟨u, hu⟩ := evenIndexBytes_succ_head (b :: t) t.length
    simp only [slotText, List.length_cons, hu, upToZero]
    by_cases hb : b = 0
    · simp [hb, List.takeWhile]
    · simp [hb, List.takeWhile]

theorem slice_getD_zero (data : List Byte) (off n : Nat) (hn : 0 < n) :
    (slice data off n).getD 0 0 = data.getD off 0 := by
  cases n with
  | zero => omega
  | succ k =>
    simp only [slice]
    cases hd : data.drop off with
    | nil =>
      have : data.length ≤ off := by
        have := congrArg List.length hd
        simp at this; omega
      simp [List.getD, List.getElem?_eq_none this]
    | cons a t =>
      have h1 : (data.drop off)[0]? = some a := by rw [hd]; simp
      rw [List.getElem?_drop] at h1
      simp only [Nat.add_zero] at h1
      simp [List.getD, h1]

/-- The outcome of `GetStat` when `shm.Open` yields `data`: a short read when
fewer than `bytesRead` bytes are there, otherwise the check of line 101. -/
theorem GetStat_err_of_open (shmOpen : Opener) (r : SharedMemory) (data : List Byte)
    (hopen : shmOpen r.name regionSize = Except.ok data) :
    (data.length < bytesRead → (GetStat shmOpen r).err = some Error.ShortRead) ∧
      (bytesRead ≤ data.length →
        ((∀ i, i < 128 → recordKeyAt data 12 i = []) ∧
          (∀ k, k < 128 → (sensorAt data (sensorsBase + 540 * k)).Name = [])) →
        (GetStat shmOpen r).err = some Error.NoData) ∧
      (bytesRead ≤ data.length →
        ¬ ((∀ i, i < 128 → recordKeyAt data 12 i = []) ∧
          (∀ k, k < 128 → (sensorAt data (sensorsBase + 540 * k)).Name = [])) →
        (GetStat shmOpen r).err = none) := by
  obtain ⟨_, he, _⟩ := GetStat_of_open shmOpen r data hopen
  obtain ⟨_, _, b3, b4⟩ := GetStat.body_spec data
  refine ⟨fun h => by rw [he]; exact b3 h, fun h hall => ?_, fun h hall => ?_⟩
  · rw [he, (b4 h).2, if_pos ((decodedStat_empty_iff data h).2 hall)]
  · rw [he, (b4 h).2, if_neg (fun h2 => hall ((decodedStat_empty_iff data h).1 h2))]

/-- No read of `GetStat` fails exactly when `bytesRead` bytes are there. -/
theorem GetStat_shortRead_iff (shmOpen : Opener) (r : SharedMemory) (data : List Byte)
    (hopen : shmOpen r.name regionSize = Except.ok data) :
    (GetStat shmOpen r).err = some Error.ShortRead ↔ data.length < bytesRead := by
  obtain ⟨h1, h2, h3⟩ := GetStat_err_of_open shmOpen r data hopen
  constructor
  · intro he
    by_contra hlt
    have hle : bytesRead ≤ data.length := by omega
    by_cases hall : ((∀ i, i < 128 → recordKeyAt data 12 i = []) ∧
        (∀ k, k < 128 → (sensorAt data (sensorsBase + 540 * k)).Name = []))
    · have := h2 hle hall
      rw [he] at this
      exact absurd this (by decide)
    · have := h3 hle hall
      rw [he] at this
      exact absurd this (by decide)
  · exact h1

/-! ## Big-endian words -/

/-- Go's shift-and-or assembly of a big-endian word is the positional sum. -/
theorem BigEndian.Uint32_eq (b : List Byte) :
    BigEndian.Uint32 b
      = (b.getD 0 0).val * 2 ^ 24 + (b.getD 1 0).val * 2 ^ 16 + (b.getD 2 0).val * 2 ^ 8
        + (b.getD 3 0).val := by
  have h0 : (b.getD 0 0).val < 2 ^ 8 := (b.getD 0 0).isLt
  have h1 : (b.getD 1 0).val < 2 ^ 8 := (b.getD 1 0).isLt
  have h2 : (b.getD 2 0).val < 2 ^ 8 := (b.getD 2 0).isLt
  have h3 : (b.getD 3 0).val < 2 ^ 8 := (b.getD 3 0).isLt
  unfold BigEndian.Uint32
  simp only [Nat.shiftLeft_eq]
  generalize (b.getD 0 0).val = b0 at h0 ⊢
  generalize (b.getD 1 0).val = b1 at h1 ⊢
  generalize (b.getD 2 0).val = b2 at h2 ⊢
  generalize (b.getD 3 0).val = b3 at h3 ⊢
  have m2 : b2 * 2 ^ 8 % 2 ^ 32 = b2 * 2 ^ 8 := Nat.mod_eq_of_lt (by omega)
  have m1 : b1 * 2 ^ 16 % 2 ^ 32 = b1 * 2 ^ 16 := Nat.mod_eq_of_lt (by omega)
  have m0 : b0 * 2 ^ 24 % 2 ^ 32 = b0 * 2 ^ 24 := Nat.mod_eq_of_lt (by omega)
  have e1 : b3 ||| b2 * 2 ^ 8 = 2 ^ 8 * b2 + b3 := by
    rw [Nat.lor_comm, Nat.mul_comm, Nat.mul_add_lt_is_or h3 b2]
  have e2 : (2 ^ 8 * b2 + b3) ||| b1 * 2 ^ 16 = 2 ^ 16 * b1 + (2 ^ 8 * b2 + b3) := by
    rw [Nat.lor_comm, Nat.mul_comm, Nat.mul_add_lt_is_or (by omega) b1]
  have e3 : (2 ^ 16 * b1 + (2 ^ 8 * b2 + b3)) ||| b0 * 2 ^ 24
      = 2 ^ 24 * b0 + (2 ^ 16 * b1 + (2 ^ 8 * b2 + b3)) := by
    rw [Nat.lor_comm, Nat.mul_comm, Nat.mul_add_lt_is_or (by omega) b0]
  rw [m2, m1, m0, e1, e2, e3]
  omega

/-! ## Buffers of one repeated byte -/

theorem slice_replicate (n off k : Nat) (a : Byte) :
    slice (List.replicate n a) off k = List.replicate (min k (n - off)) a := by
  simp [slice, List.drop_replicate, List.take_replicate]

theorem getD_replicate_zero (n i : Nat) : (List.replicate n (0 : Byte)).getD i 0 = 0 := by
  by_cases h : i < n
  · simp [List.getD, List.getElem?_replicate, h]
  · simp [List.getD, List.getElem?_replicate, h]

theorem slotText_replicate_zero (n : Nat) : slotText (List.replicate n (0 : Byte)) = [] :=
  (slotText_eq_nil_iff _).2 (getD_replicate_zero n 0)

theorem BigEndian.Uint32_replicate_zero (n : Nat) :
    BigEndian.Uint32 (List.replicate n (0 : Byte)) = 0 := by
  rw [BigEndian.Uint32_eq]
  simp [getD_replicate_zero]

/-- An all-zero buffer, whatever its length, decodes to the initial stat. -/
theorem decodedStat_replicate_zero (n : Nat) :
    decodedStat (List.replicate n (0 : Byte)) = GetStat.initial := by
  have hh : headerStat GetStat.initial (List.replicate n (0 : Byte)) 0 = GetStat.initial := by
    simp [headerStat, slice_replicate, BigEndian.Uint32_replicate_zero, GetStat.initial]
  have hr : ∀ q base st, addRecords st (recordSlots (List.replicate n (0 : Byte)) base q) = st := by
    intro q
    induction q with
    | zero => intro base st; rfl
    | succ q ih =>
      intro base st
      rw [recordSlots_succ_last, addRecords_append, ih, addRecords_cons, addRecords_nil]
      simp [GetStat.addRecord, recordKeyAt, slice_replicate, slotText_replicate_zero]
  have hs : ∀ q base st,
      addSensors st (sensorSlots (List.replicate n (0 : Byte)) base 540 q) = st := by
    intro q
    induction q with
    | zero => intro base st; rfl
    | succ q ih =>
      intro base st
      rw [sensorSlots_succ_last, addSensors_append, ih, addSensors_cons, addSensors_nil]
      simp [GetStat.addSensor, sensorAt, slice_replicate, slotText_replicate_zero]
  unfold decodedStat
  rw [hs, hr, hh]

/-- A buffer filled with the byte `0x41` has a non-empty key in record slot 0. -/
theorem recordKeyAt_replicate_41 (n : Nat) (h : 12 < n) :
    recordKeyAt (List.replicate n (0x41 : Byte)) 12 0 ≠ [] := by
  intro he
  rw [recordKeyAt, slotText_eq_nil_iff, slice_getD_zero _ _ _ (by decide)] at he
  simp [List.getD, List.getElem?_replicate, h] at he

/-- On a region filled with the byte `0x41` `GetStat` succeeds. -/
theorem GetStat_filled_ok (r : SharedMemory) :
    (GetStat (serving (List.replicate regionSize (0x41 : Byte))) r).err = none := by
  have hlen : bytesRead ≤ (List.replicate regionSize (0x41 : Byte)).length := by
    rw [List.length_replicate]; decide
  refine (GetStat_err_of_open _ r _ rfl).2.2 hlen ?_
  intro hall
  exact recordKeyAt_replicate_41 regionSize (by decide) (hall.1 0 (by decide))

/-! ## More on slices and partly decoded buffers -/

theorem slice_getD (data : List Byte) (off n i : Nat) (hi : i < n) :
    (slice data off n).getD i 0 = data.getD (off + i) 0 := by
  simp [slice, List.getD, List.getElem?_take, hi, List.getElem?_drop]

theorem sensorAt_Name (data : List Byte) (off : Nat) :
    (sensorAt data off).Name = slotText (slice data off 512) := rfl

theorem slotText_eq_scan (s : List Byte) (hev : s.length % 2 = 0) :
    slotText s = readString.scan s [] := by
  rw [readString.scan_eq, List.nil_append, slotText, evenIndexBytes_pred_of_even _ _ hev]

theorem zerosWithByte_length (n off : Nat) (b : Byte) (h : off < n) :
    (zerosWithByte n off b).length = n := by
  simp [zerosWithByte]; omega

theorem zerosWithByte_getD_ne (n off j : Nat) (b : Byte) (h : j ≠ off) :
    (zerosWithByte n off b).getD j 0 = 0 := by
  unfold zerosWithByte
  rw [List.getD_eq_getElem?_getD]
  rcases Nat.lt_or_gt_of_ne h with hlt | hgt
  · have hl : j < (List.replicate off (0 : Byte)).length := by simp; omega
    rw [List.getElem?_append_left hl]
    simp [List.getElem?_replicate, hlt]
  · have hge : (List.replicate off (0 : Byte)).length ≤ j := by simp; omega
    rw [List.getElem?_append_right hge]
    have hj : j - (List.replicate off (0 : Byte)).length = (j - off - 1) + 1 := by
      simp; omega
    rw [hj, List.getElem?_cons_succ]
    by_cases hlt : j - off - 1 < n - off - 1
    · simp [List.getElem?_replicate, hlt]
    · simp [List.getElem?_replicate, hlt]

theorem zerosWithByte_drop (n off : Nat) (b : Byte) :
    (zerosWithByte n off b).drop off = b :: List.replicate (n - off - 1) 0 := by
  unfold zerosWithByte
  exact List.drop_left' (by simp)

/-- The available records of any buffer: the non-empty keys of the record
slots that lie wholly inside it. -/
theorem decodedStat_available_records_upto (data : List Byte) :
    (decodedStat data).AvailableRecords
      = ((List.range (min 128 ((data.length - 12) / 1024))).map
          (fun i => recordKeyAt data 12 i)).filter (fun k => k ≠ []) := by
  unfold decodedStat
  rw [(addSensors_frame _ _).2.2.2.2, addRecords_available]
  simp [headerStat, GetStat.initial, recordSlots, recordsBase, List.map_map, Function.comp_def]

/-- The available sensors of any buffer: the non-empty names of the 540-byte
sensor slots that lie wholly inside it. -/
theorem decodedStat_available_sensors_upto (data : List Byte) :
    (decodedStat data).AvailableSensors
      = ((List.range (min 128 ((data.length - sensorsBase) / 540))).map
          (fun k => (sensorAt data (sensorsBase + 540 * k)).Name)).filter
          (fun k => k ≠ []) := by
  unfold decodedStat
  rw [addSensors_available, (addRecords_frame _ _).2.2.2.2]
  show [] ++ _ = _
  rw [List.nil_append, sensorSlots, List.map_map]
  rfl

/-! ## Little-endian words -/

theorem lor_mul_two_pow (x b k : Nat) (hx : x < 2 ^ k) : x ||| b * 2 ^ k = b * 2 ^ k + x := by
  rw [Nat.lor_comm, Nat.mul_comm, Nat.mul_add_lt_is_or hx b]

theorem LittleEndian.Uint64_eq (b : List Byte) :
    LittleEndian.Uint64 b
      = (b.getD 0 0).val + (b.getD 1 0).val * 2 ^ 8 + (b.getD 2 0).val * 2 ^ 16
        + (b.getD 3 0).val * 2 ^ 24 + (b.getD 4 0).val * 2 ^ 32 + (b.getD 5 0).val * 2 ^ 40
        + (b.getD 6 0).val * 2 ^ 48 + (b.getD 7 0).val * 2 ^ 56 := by
  have h0 : (b.getD 0 0).val < 2 ^ 8 := (b.getD 0 0).isLt
  have h1 : (b.getD 1 0).val < 2 ^ 8 := (b.getD 1 0).isLt
  have h2 : (b.getD 2 0).val < 2 ^ 8 := (b.getD 2 0).isLt
  have h3 : (b.getD 3 0).val < 2 ^ 8 := (b.getD 3 0).isLt
  have h4 : (b.getD 4 0).val < 2 ^ 8 := (b.getD 4 0).isLt
  have h5 : (b.getD 5 0).val < 2 ^ 8 := (b.getD 5 0).isLt
  have h6 : (b.getD 6 0).val < 2 ^ 8 := (b.getD 6 0).isLt
  have h7 : (b.getD 7 0).val < 2 ^ 8 := (b.getD 7 0).isLt
  unfold LittleEndian.Uint64
  simp only [Nat.shiftLeft_eq]
  generalize (b.getD 0 0).val = b0 at h0 ⊢
  generalize (b.getD 1 0).val = b1 at h1 ⊢
  generalize (b.getD 2 0).val = b2 at h2 ⊢
  generalize (b.getD 3 0).val = b3 at h3 ⊢
  generalize (b.getD 4 0).val = b4 at h4 ⊢
  generalize (b.getD 5 0).val = b5 at h5 ⊢
  generalize (b.getD 6 0).val = b6 at h6 ⊢
  generalize (b.getD 7 0).val = b7 at h7 ⊢
  rw [Nat.mod_eq_of_lt (show b1 * 2 ^ 8 < 2 ^ 64 by omega),
    Nat.mod_eq_of_lt (show b2 * 2 ^ 16 < 2 ^ 64 by omega),
    Nat.mod_eq_of_lt (show b3 * 2 ^ 24 < 2 ^ 64 by omega),
    Nat.mod_eq_of_lt (show b4 * 2 ^ 32 < 2 ^ 64 by omega),
    Nat.mod_eq_of_lt (show b5 * 2 ^ 40 < 2 ^ 64 by omega),
    Nat.mod_eq_of_lt (show b6 * 2 ^ 48 < 2 ^ 64 by omega),
    Nat.mod_eq_of_lt (show b7 * 2 ^ 56 < 2 ^ 64 by omega)]
  rw [lor_mul_two_pow b0 b1 8 h0,
    lor_mul_two_pow _ b2 16 (by omega),
    lor_mul_two_pow _ b3 24 (by omega),
    lor_mul_two_pow _ b4 32 (by omega),
    lor_mul_two_pow _ b5 40 (by omega),
    lor_mul_two_pow _ b6 48 (by omega),
    lor_mul_two_pow _ b7 56 (by omega)]
  omega

/-! ## Lookups and the available sequences -/

theorem addSensor_find (st : Stat) (sr : SensorRecord) (k2 : GoString) :
    (GetStat.addSensor st sr).SensorRecords.find k2
      = if sr.Name ≠ [] ∧ k2 = sr.Name then some sr else st.SensorRecords.find k2 := by
  by_cases hk : sr.Name = []
  · simp [GetStat.addSensor, hk]
  · by_cases h2 : k2 = sr.Name
    · subst h2
      simp [GetStat.addSensor, hk, GoMap.find_store_self]
    · simp [GetStat.addSensor, hk, h2, GoMap.find_store_ne]

theorem addRecord_consistent (st : Stat) (k v : GoString) (h : st.Consistent) :
    (GetStat.addRecord st k v).Consistent := by
  obtain ⟨h1, h2, h3⟩ := h
  by_cases hk : k = []
  · have e : GetStat.addRecord st k v = st := by simp [GetStat.addRecord, hk]
    rw [e]; exact ⟨h1, h2, h3⟩
  · refine ⟨?_, ?_, ?_⟩
    · intro k2
      rw [addRecord_find]
      have ha : (GetStat.addRecord st k v).AvailableRecords = st.AvailableRecords ++ [k] := by
        simp [GetStat.addRecord, hk]
      rw [ha, List.mem_append, List.mem_singleton, ← h1 k2]
      by_cases e : k2 = k
      · simp [hk, e]
      · simp [hk, e]
    · have hs : (GetStat.addRecord st k v).SensorRecords = st.SensorRecords := by
        simp [GetStat.addRecord, hk]
      have ha : (GetStat.addRecord st k v).AvailableSensors = st.AvailableSensors := by
        simp [GetStat.addRecord, hk]
      rw [hs, ha]; exact h2
    · have hs : (GetStat.addRecord st k v).SensorRecords = st.SensorRecords := by
        simp [GetStat.addRecord, hk]
      rw [hs]; exact h3

theorem addSensor_consistent (st : Stat) (sr : SensorRecord) (h : st.Consistent) :
    (GetStat.addSensor st sr).Consistent := by
  obtain ⟨h1, h2, h3⟩ := h
  by_cases hk : sr.Name = []
  · have e : GetStat.addSensor st sr = st := by simp [GetStat.addSensor, hk]
    rw [e]; exact ⟨h1, h2, h3⟩
  · refine ⟨?_, ?_, ?_⟩
    · have hs : (GetStat.addSensor st sr).Records = st.Records := by
        simp [GetStat.addSensor, hk]
      have ha : (GetStat.addSensor st sr).AvailableRecords = st.AvailableRecords := by
        simp [GetStat.addSensor, hk]
      rw [hs, ha]; exact h1
    · intro k2
      rw [addSensor_find]
      have ha : (GetStat.addSensor st sr).AvailableSensors
          = st.AvailableSensors ++ [sr.Name] := by
        simp [GetStat.addSensor, hk]
      rw [ha, List.mem_append, List.mem_singleton, ← h2 k2]
      by_cases e : k2 = sr.Name
      · simp [hk, e]
      · simp [hk, e]
    · intro k2 sr2
      rw [addSensor_find]
      by_cases e : k2 = sr.Name
      · simp only [hk, e, ne_eq, not_false_eq_true, and_self, if_true, Option.some.injEq]
        intro h; rw [← h]
      · simp only [e, and_false, if_false]
        exact h3 k2 sr2

theorem addRecords_consistent (kvs : List (GoString × GoString)) :
    ∀ st : Stat, st.Consistent → (addRecords st kvs).Consistent := by
  induction kvs with
  | nil => intro st h; exact h
  | cons kv t ih =>
    intro st h
    rw [addRecords_cons]
    exact ih _ (addRecord_consistent st kv.1 kv.2 h)

theorem addSensors_consistent (srs : List SensorRecord) :
    ∀ st : Stat, st.Consistent → (addSensors st srs).Consistent := by
  induction srs with
  | nil => intro st h; exact h
  | cons sr t ih =>
    intro st h
    rw [addSensors_cons]
    exact ih _ (addSensor_consistent st sr h)

theorem headerStat_consistent (data : List Byte) :
    (headerStat GetStat.initial data 0).Consistent := by
  refine ⟨?_, ?_, ?_⟩
  · intro k; simp [headerStat, GetStat.initial, GoMap.make, GoMap.find]
  · intro k; simp [headerStat, GetStat.initial, GoMap.make, GoMap.find]
  · intro k sr; simp [headerStat, GetStat.initial, GoMap.make, GoMap.find]

theorem decodedStat_consistent (data : List Byte) : (decodedStat data).Consistent :=
  addSensors_consistent _ _ (addRecords_consistent _ _ (headerStat_consistent data))

theorem GetStat_stat_decoded (shmOpen : Opener) (r : SharedMemory) :
    ∃ data, (GetStat shmOpen r).stat = decodedStat data := by
  cases h : shmOpen r.name regionSize with
  | error e =>
    refine ⟨[], ?_⟩
    simp only [GetStat, h]
    exact (decodedStat_replicate_zero 0).symm
  | ok data => exact ⟨data, (GetStat_of_open shmOpen r data h).1⟩

/-- Last sensor slot wins: a non-empty name maps to the record of the highest
slot that carries it. -/
theorem sensorSlots_find_last (data : List Byte) (base stride : Nat) (stat : Stat) (i : Nat) :
    ∀ n : Nat, i < n → (sensorAt data (base + stride * i)).Name ≠ [] →
      (∀ j, i < j → j < n →
        (sensorAt data (base + stride * j)).Name ≠ (sensorAt data (base + stride * i)).Name) →
      (addSensors stat (sensorSlots data base stride n)).SensorRecords.find
          (sensorAt data (base + stride * i)).Name
        = some (sensorAt data (base + stride * i)) := by
  intro n
  induction n with
  | zero => intro h; omega
  | succ n ih =>
    intro hin hk hlast
    rw [sensorSlots_succ_last, addSensors_append, addSensors_cons, addSensors_nil,
      addSensor_find]
    by_cases e : i = n
    · subst e
      simp [hk]
    · have hlt : i < n := by omega
      have hn : ¬ (sensorAt data (base + stride * i)).Name
          = (sensorAt data (base + stride * n)).Name :=
        fun e2 => hlast n hlt (Nat.lt_succ_self n) e2.symm
      simp only [hn, and_false, if_false]
      exact ih hlt hk (fun j h1 h2 => hlast j h1 (Nat.lt_succ_of_lt h2))

/-- On the region filled with the byte `0x41` the last sensor slot is stored
under its name. -/
theorem GetStat_filled_last_sensor (r : SharedMemory) :
    (GetStat (serving (List.replicate regionSize (0x41 : Byte))) r).stat.SensorRecords.find
        (sensorAt (List.replicate regionSize (0x41 : Byte)) (sensorsBase + 540 * 127)).Name
      = some (sensorAt (List.replicate regionSize (0x41 : Byte)) (sensorsBase + 540 * 127)) := by
  have hlen : bytesRead ≤ (List.replicate regionSize (0x41 : Byte)).length := by
    rw [List.length_replicate]; decide
  rw [(GetStat_of_open _ r _ rfl).1, decodedStat_full _ hlen]
  refine sensorSlots_find_last _ sensorsBase 540 _ 127 128 (by decide) ?_ ?_
  · intro he
    rw [sensorAt_Name, slotText_eq_nil_iff, slice_getD_zero _ _ _ (by decide)] at he
    have hlt : sensorsBase + 540 * 127 < regionSize := by decide
    simp [List.getD, List.getElem?_replicate, hlt] at he
  · intro j h1 h2; omega

theorem Stat.lookups_of_consistent (st : Stat) (h : st.Consistent) (t : GoString) :
    ((st.GetRecord t).2 = true ↔ t ∈ st.GetAvailableRecords) ∧
      ((st.GetSensor t).2 = true ↔ t ∈ st.GetAvailableSensors) ∧
      ((st.GetSensorValue t).2 = true ↔ t ∈ st.GetAvailableSensors) ∧
      (∀ v, st.Records.find t = some v → st.GetRecord t = (v, true)) ∧
      (∀ sr, st.SensorRecords.find t = some sr →
        st.GetSensor t = (sr, true) ∧ st.GetSensorValue t = (sr.Value, true)) ∧
      (t ∉ st.GetAvailableSensors → st.GetSensorValue t = (0, false)) := by
  obtain ⟨c1, c2, _⟩ := h
  have hR : ((st.GetRecord t).2 = true ↔ st.Records.find t ≠ none) := by
    unfold Stat.GetRecord
    cases st.Records.find t <;> simp
  have hS : ((st.GetSensor t).2 = true ↔ st.SensorRecords.find t ≠ none) := by
    unfold Stat.GetSensor
    cases st.SensorRecords.find t <;> simp
  have hV : ((st.GetSensorValue t).2 = true ↔ st.SensorRecords.find t ≠ none) := by
    unfold Stat.GetSensorValue Stat.GetSensor
    cases st.SensorRecords.find t <;> simp
  refine ⟨hR.trans (c1 t), hS.trans (c2 t), hV.trans (c2 t), ?_, ?_, ?_⟩
  · intro v hv
    simp [Stat.GetRecord, hv]
  · intro sr hsr
    simp [Stat.GetSensorValue, Stat.GetSensor, hsr]
  · intro hn
    have : st.SensorRecords.find t = none := by
      by_contra h
      exact hn ((c2 t).1 h)
    simp [Stat.GetSensorValue, Stat.GetSensor, this]

theorem GetStat_stat_consistent (shmOpen : Opener) (r : SharedMemory) :
    (GetStat shmOpen r).stat.Consistent := by
  obtain ⟨data, hd⟩ := GetStat_stat_decoded shmOpen r
  rw [hd]; exact decodedStat_consistent data

/-! ## The history of the byte source -/

theorem readsOnly_nil : readsOnly [] := by
  intro e he; cases he

theorem readsOnly_snoc (l : List MemEvent) (n : Nat) (h : readsOnly l) :
    readsOnly (l ++ [MemEvent.read n]) := by
  intro e he
  rcases List.mem_append.1 he with h1 | h1
  · exact h e h1
  · exact ⟨n, List.mem_singleton.1 h1⟩

theorem Memory.Read_log (m : Memory) (n : Nat) :
    (m.Read n).mem.log = m.log ++ [MemEvent.read n] := by
  unfold Memory.Read
  split <;> rfl

theorem readString_log (m : Memory) (size : Nat) :
    (readString m size).mem.log = m.log ++ [MemEvent.read size] := by
  simp only [readString]
  split <;> exact Memory.Read_log m size

theorem readInt32_log (m : Memory) :
    (readInt32 m).mem.log = m.log ++ [MemEvent.read 4] := by
  simp only [readInt32]
  split <;> exact Memory.Read_log m 4

theorem readFloat64_log (m : Memory) :
    (readFloat64 m).mem.log = m.log ++ [MemEvent.read 8] := by
  simp only [readFloat64]
  split <;> exact Memory.Read_log m 8

theorem GetStat.records_readsOnly (n : Nat) : ∀ (stat : Stat) (m : Memory),
    readsOnly m.log → readsOnly (GetStat.records n stat m).mem.log := by
  induction n with
  | zero => intro stat m h; exact h
  | succ n ih =>
    intro stat m h
    have hk : readsOnly (readString m 512).mem.log := by
      rw [readString_log]; exact readsOnly_snoc _ _ h
    have hv : readsOnly (readString (readString m 512).mem 512).mem.log := by
      rw [readString_log]; exact readsOnly_snoc _ _ hk
    simp only [GetStat.records]
    split
    · exact hk
    · split
      · exact hv
      · exact ih _ _ hv

theorem GetStat.sensors_readsOnly (n : Nat) : ∀ (stat : Stat) (m : Memory),
    readsOnly m.log → readsOnly (GetStat.sensors n stat m).mem.log := by
  induction n with
  | zero => intro stat m h; exact h
  | succ n ih =>
    intro stat m h
    have h1 : readsOnly (readString m 512).mem.log := by
      rw [readString_log]; exact readsOnly_snoc _ _ h
    have h2 : readsOnly (readString (readString m 512).mem 16).mem.log := by
      rw [readString_log]; exact readsOnly_snoc _ _ h1
    have h3 : readsOnly (readInt32 (readString (readString m 512).mem 16).mem).mem.log := by
      rw [readInt32_log]; exact readsOnly_snoc _ _ h2
    have h4 : readsOnly
        (readFloat64 (readInt32 (readString (readString m 512).mem 16).mem).mem).mem.log := by
      rw [readFloat64_log]; exact readsOnly_snoc _ _ h3
    simp only [GetStat.sensors]
    split
    · exact h1
    · split
      · exact h2
      · split
        · exact h3
        · split
          · exact h4
          · exact ih _ _ h4

theorem GetStat.header_readsOnly (stat : Stat) (m : Memory) (h : readsOnly m.log) :
    readsOnly (GetStat.header stat m).mem.log := by
  have h1 : readsOnly (readInt32 m).mem.log := by
    rw [readInt32_log]; exact readsOnly_snoc _ _ h
  have h2 : readsOnly (readInt32 (readInt32 m).mem).mem.log := by
    rw [readInt32_log]; exact readsOnly_snoc _ _ h1
  have h3 : readsOnly (readInt32 (readInt32 (readInt32 m).mem).mem).mem.log := by
    rw [readInt32_log]; exact readsOnly_snoc _ _ h2
  simp only [GetStat.header]
  split
  · exact h1
  · split
    · exact h2
    · split
      · exact h3
      · exact h3

theorem GetStat.body_readsOnly (stat : Stat) (m : Memory) (h : readsOnly m.log) :
    readsOnly (GetStat.body stat m).mem.log := by
  have hh := GetStat.header_readsOnly stat m h
  have hr : readsOnly (GetStat.reads stat m).mem.log := by
    simp only [GetStat.reads]
    split
    · exact hh
    · have h2 := GetStat.records_readsOnly 128 (GetStat.header stat m).stat _ hh
      split
      · exact h2
      · exact GetStat.sensors_readsOnly 128 _ _ h2
  simp only [GetStat.body]
  split
  · exact hr
  · split <;> exact hr

/-! ## Bytes that decide the result -/

theorem slice_take (data : List Byte) (N off n : Nat) (h : off + n ≤ N) :
    slice (data.take N) off n = slice data off n := by
  unfold slice
  rw [List.drop_take, List.take_take]
  congr 1
  omega

theorem headerStat_congr (st : Stat) (d1 d2 : List Byte) (h1 : 12 ≤ d1.length)
    (h2 : 12 ≤ d2.length) (hs : ∀ off n, off + n ≤ 12 → slice d1 off n = slice d2 off n) :
    headerStat st d1 0 = headerStat st d2 0 := by
  have a1 : 0 + 4 ≤ d1.length := by omega
  have a2 : 0 + 8 ≤ d1.length := by omega
  have a3 : 0 + 12 ≤ d1.length := by omega
  have b1 : 0 + 4 ≤ d2.length := by omega
  have b2 : 0 + 8 ≤ d2.length := by omega
  have b3 : 0 + 12 ≤ d2.length := by omega
  simp only [headerStat, a1, a2, a3, b1, b2, b3, if_true]
  rw [hs 0 4 (by omega), hs (0 + 4) 4 (by omega), hs (0 + 8) 4 (by omega)]

theorem recordSlots_congr (d1 d2 : List Byte) (n : Nat)
    (hs : ∀ off k, off + k ≤ 12 + 1024 * n → slice d1 off k = slice d2 off k) :
    recordSlots d1 12 n = recordSlots d2 12 n := by
  unfold recordSlots
  apply List.map_congr_left
  intro i hi
  have hi2 := List.mem_range.1 hi
  simp only [recordKeyAt, recordValueAt]
  rw [hs (12 + 1024 * i) 512 (by omega), hs (12 + 1024 * i + 512) 512 (by omega)]

theorem sensorSlots_congr (d1 d2 : List Byte) (base n : Nat)
    (hs : ∀ off k, off + k ≤ base + 540 * n → slice d1 off k = slice d2 off k) :
    sensorSlots d1 base 540 n = sensorSlots d2 base 540 n := by
  unfold sensorSlots
  apply List.map_congr_left
  intro i hi
  have hi2 := List.mem_range.1 hi
  simp only [sensorAt]
  rw [hs (base + 540 * i) 512 (by omega), hs (base + 540 * i + 512) 16 (by omega),
    hs (base + 540 * i + 528) 4 (by omega), hs (base + 540 * i + 532) 8 (by omega)]

/-- Buffers that hold all the bytes read and agree on them decode alike. -/
theorem decodedStat_congr (d1 d2 : List Byte) (h1 : bytesRead ≤ d1.length)
    (h2 : bytesRead ≤ d2.length)
    (hs : ∀ off n, off + n ≤ bytesRead → slice d1 off n = slice d2 off n) :
    decodedStat d1 = decodedStat d2 := by
  rw [decodedStat_full d1 h1, decodedStat_full d2 h2]
  simp only [bytesRead] at h1 h2 hs
  rw [headerStat_congr _ d1 d2 (by omega) (by omega) (fun off n h => hs off n (by omega)),
    recordSlots_congr d1 d2 128 (fun off n h => hs off n (by omega)),
    sensorSlots_congr d1 d2 sensorsBase 128
      (fun off n h => hs off n (by simp only [sensorsBase] at h; omega))]

/-- Texts read from two slots that agree at the even indices looked at. -/
theorem readString.scan_agree : ∀ (s1 s2 utf : List Byte), s1.length = s2.length →
    (∀ i, i < s1.length → i % 2 = 0 →
      (∀ j, j < i → j % 2 = 0 → s1.getD j 0 ≠ 0) → s1.getD i 0 = s2.getD i 0) →
    readString.scan s1 utf = readString.scan s2 utf
  | [], s2, utf, hl, _ => by
    have : s2 = [] := List.length_eq_zero.1 hl.symm
    rw [this]
  | [a], s2, utf, hl, _ => by
    match s2, hl with
    | [b], _ => simp [readString.scan]
  | a0 :: a1 :: t1, s2, utf, hl, h => by
    match s2, hl, h with
    | b0 :: b1 :: t2, hl, h =>
      have h0 : a0 = b0 := by
        have := h 0 (by simp) (by decide) (fun j hj _ => absurd hj (Nat.not_lt_zero j))
        simpa using this
      subst h0
      rw [readString.scan, readString.scan]
      by_cases hz : a0 = 0
      · simp [hz]
      · simp only [hz, if_false]
        apply readString.scan_agree t1 t2 (utf ++ [a0])
        · simpa using hl
        · intro i hi hev hprev
          have := h (i + 2) (by simp; omega) (by omega) (by
            intro j hj hjev
            match j, hj, hjev with
            | 0, _, _ => simpa using hz
            | 1, _, hjev => omega
            | j + 2, hj, hjev =>
              have := hprev j (by omega) (by omega)
              simpa using this)
          simpa using this

/-! ## Size bounds -/

theorem evenIndexBytes_length (s : List Byte) (n : Nat) :
    (evenIndexBytes s n).length = (n + 1) / 2 := by
  unfold evenIndexBytes
  rw [List.length_map]
  induction n with
  | zero => rfl
  | succ n ih =>
    rw [List.range_succ, List.filter_append, List.length_append, ih]
    by_cases h : n % 2 = 0
    · simp [h]; omega
    · simp [h]; omega

theorem slotText_length_le (s : List Byte) : (slotText s).length ≤ (s.length + 1) / 2 := by
  unfold slotText upToZero
  have h := (List.takeWhile_prefix (fun b : Byte => decide (b ≠ 0))
    (l := evenIndexBytes s s.length)).length_le
  rw [evenIndexBytes_length] at h
  exact h

theorem zero_not_mem_slotText (s : List Byte) : (0 : Byte) ∉ slotText s := by
  intro h
  have := List.mem_takeWhile_imp h
  simp at this

theorem slice_length_le (data : List Byte) (off n : Nat) : (slice data off n).length ≤ n := by
  unfold slice
  exact List.length_take_le n _

theorem slotText_slice_length (data : List Byte) (off n : Nat) :
    (slotText (slice data off n)).length ≤ (n + 1) / 2 := by
  have h1 := slotText_length_le (slice data off n)
  have h2 := slice_length_le data off n
  have : ((slice data off n).length + 1) / 2 ≤ (n + 1) / 2 := Nat.div_le_div_right (by omega)
  omega

theorem GoMap.len_store_le {V : Type} (m : GoMap V) (k : GoString) (v : V) :
    (m.store k v).len ≤ m.len + 1 := by
  simp only [GoMap.store, GoMap.len, List.length_cons]
  have := List.length_filter_le (fun p : GoString × V => decide (p.1 ≠ k)) m.entries
  omega

theorem GoMap.mem_store {V : Type} (m : GoMap V) (k : GoString) (v : V) (p : GoString × V)
    (h : p ∈ (m.store k v).entries) : p = (k, v) ∨ p ∈ m.entries := by
  simp only [GoMap.store, List.mem_cons, List.mem_filter] at h
  rcases h with h | h
  · exact Or.inl h
  · exact Or.inr h.1

theorem addRecord_bounded (st : Stat) (k v : GoString) (h : st.Bounded)
    (hk : k.length ≤ 256) (hz : (0 : Byte) ∉ k) (hv : v.length ≤ 256) :
    (GetStat.addRecord st k v).Bounded := by
  obtain ⟨h1, h2, h3, h4, h5, h6⟩ := h
  by_cases he : k = []
  · have e : GetStat.addRecord st k v = st := by simp [GetStat.addRecord, he]
    rw [e]; exact ⟨h1, h2, h3, h4, h5, h6⟩
  · have e : GetStat.addRecord st k v
        = { st with Records := st.Records.store k v,
                    AvailableRecords := st.AvailableRecords ++ [k] } := by
      simp [GetStat.addRecord, he]
    rw [e]
    refine ⟨?_, h2, ?_, h4, ?_, h6⟩
    · have := GoMap.len_store_le st.Records k v
      simp only [List.length_append, List.length_singleton]
      omega
    · intro k2 hk2
      rcases List.mem_append.1 hk2 with hm | hm
      · exact h3 k2 hm
      · rw [List.mem_singleton.1 hm]; exact ⟨he, hk, hz⟩
    · intro p hp
      rcases GoMap.mem_store _ _ _ _ hp with hm | hm
      · rw [hm]; exact ⟨⟨he, hk, hz⟩, hv⟩
      · exact h5 p hm

theorem addSensor_bounded (st : Stat) (sr : SensorRecord) (h : st.Bounded)
    (hk : sr.Name.length ≤ 256) (hz : (0 : Byte) ∉ sr.Name) (hu : sr.Unit.length ≤ 8) :
    (GetStat.addSensor st sr).Bounded := by
  obtain ⟨h1, h2, h3, h4, h5, h6⟩ := h
  by_cases he : sr.Name = []
  · have e : GetStat.addSensor st sr = st := by simp [GetStat.addSensor, he]
    rw [e]; exact ⟨h1, h2, h3, h4, h5, h6⟩
  · have e : GetStat.addSensor st sr
        = { st with SensorRecords := st.SensorRecords.store sr.Name sr,
                    AvailableSensors := st.AvailableSensors ++ [sr.Name] } := by
      simp [GetStat.addSensor, he]
    rw [e]
    refine ⟨h1, ?_, h3, ?_, h5, ?_⟩
    · have := GoMap.len_store_le st.SensorRecords sr.Name sr
      simp only [List.length_append, List.length_singleton]
      omega
    · intro k2 hk2
      rcases List.mem_append.1 hk2 with hm | hm
      · exact h4 k2 hm
      · rw [List.mem_singleton.1 hm]; exact ⟨he, hk, hz⟩
    · intro p hp
      rcases GoMap.mem_store _ _ _ _ hp with hm | hm
      · rw [hm]; exact ⟨⟨he, hk, hz⟩, rfl, hu⟩
      · exact h6 p hm

theorem addRecords_bounded (kvs : List (GoString × GoString)) : ∀ st : Stat, st.Bounded →
    (∀ kv ∈ kvs, kv.1.length ≤ 256 ∧ (0 : Byte) ∉ kv.1 ∧ kv.2.length ≤ 256) →
    (addRecords st kvs).Bounded := by
  induction kvs with
  | nil => intro st h _; exact h
  | cons kv t ih =>
    intro st h hall
    rw [addRecords_cons]
    obtain ⟨a, b, c⟩ := hall kv (List.mem_cons_self _ _)
    exact ih _ (addRecord_bounded st kv.1 kv.2 h a b c)
      (fun kv2 hm => hall kv2 (List.mem_cons_of_mem _ hm))

theorem addSensors_bounded (srs : List SensorRecord) : ∀ st : Stat, st.Bounded →
    (∀ sr ∈ srs, sr.Name.length ≤ 256 ∧ (0 : Byte) ∉ sr.Name ∧ sr.Unit.length ≤ 8) →
    (addSensors st srs).Bounded := by
  induction srs with
  | nil => intro st h _; exact h
  | cons sr t ih =>
    intro st h hall
    rw [addSensors_cons]
    obtain ⟨a, b, c⟩ := hall sr (List.mem_cons_self _ _)
    exact ih _ (addSensor_bounded st sr h a b c)
      (fun sr2 hm => hall sr2 (List.mem_cons_of_mem _ hm))

theorem headerStat_bounded (data : List Byte) :
    (headerStat GetStat.initial data 0).Bounded := by
  refine ⟨Nat.le_refl _, Nat.le_refl _, ?_, ?_, ?_, ?_⟩ <;>
    · intro k hk
      simp [headerStat, GetStat.initial, GoMap.make] at hk

theorem decodedStat_bounded (data : List Byte) : (decodedStat data).Bounded := by
  unfold decodedStat
  apply addSensors_bounded
  · apply addRecords_bounded _ _ (headerStat_bounded data)
    intro kv hkv
    obtain ⟨i, _, rfl⟩ := List.mem_map.1 hkv
    exact ⟨slotText_slice_length _ _ 512, zero_not_mem_slotText _,
      slotText_slice_length _ _ 512⟩
  · intro sr hsr
    obtain ⟨i, _, rfl⟩ := List.mem_map.1 hsr
    exact ⟨slotText_slice_length _ _ 512, zero_not_mem_slotText _,
      slotText_slice_length _ _ 16⟩

theorem decodedStat_available_le (data : List Byte) :
    (decodedStat data).AvailableRecords.length ≤ 128 ∧
      (decodedStat data).AvailableSensors.length ≤ 128 := by
  rw [decodedStat_available_records_upto, decodedStat_available_sensors_upto]
  constructor
  · refine (List.length_filter_le _ _).trans ?_
    rw [List.length_map, List.length_range]
    exact Nat.min_le_left _ _
  · refine (List.length_filter_le _ _).trans ?_
    rw [List.length_map, List.length_range]
    exact Nat.min_le_left _ _

theorem lookup_mem {V : Type} (l : List (GoString × V)) (k : GoString) (v : V)
    (h : l.lookup k = some v) : (k, v) ∈ l := by
  induction l with
  | nil => simp at h
  | cons p t ih =>
    obtain ⟨a, b⟩ := p
    by_cases e : k = a
    · subst e
      simp [List.lookup] at h
      rw [h]; exact List.mem_cons_self _ _
    · have hne : (k == a) = false := by simpa using e
      simp only [List.lookup, hne] at h
      exact List.mem_cons_of_mem _ (ih h)

theorem GetStat_stat_bounded (shmOpen : Opener) (r : SharedMemory) :
    (GetStat shmOpen r).stat.Bounded := by
  obtain ⟨data, hd⟩ := GetStat_stat_decoded shmOpen r
  rw [hd]; exact decodedStat_bounded data

theorem GetStat_stat_available_le (shmOpen : Opener) (r : SharedMemory) :
    (GetStat shmOpen r).stat.AvailableRecords.length ≤ 128 ∧
      (GetStat shmOpen r).stat.AvailableSensors.length ≤ 128 := by
  obtain ⟨data, hd⟩ := GetStat_stat_decoded shmOpen r
  rw [hd]; exact decodedStat_available_le data

/-! ## Regions with a single non-zero byte -/

theorem zerosWithByte_getD_self (n off : Nat) (b : Byte) :
    (zerosWithByte n off b).getD off 0 = b := by
  unfold zerosWithByte
  have hge : (List.replicate off (0 : Byte)).length ≤ off := by simp
  rw [List.getD_eq_getElem?_getD, List.getElem?_append_right hge]
  simp

/-- A region that is zero except for one byte that is the first byte of no
record slot and of no sensor slot as read decodes to nothing. -/
theorem GetStat_zerosWithByte_noData (r : SharedMemory) (off : Nat) (b : Byte)
    (hoff : off < regionSize) (hk : ∀ i, i < 128 → 12 + 1024 * i ≠ off)
    (hs : ∀ k, k < 128 → sensorsBase + 540 * k ≠ off) :
    (GetStat (serving (zerosWithByte regionSize off b)) r).err = some Error.NoData := by
  have hlen : (zerosWithByte regionSize off b).length = regionSize :=
    zerosWithByte_length _ _ _ hoff
  have hle : bytesRead ≤ (zerosWithByte regionSize off b).length := by
    rw [hlen]; decide
  refine (GetStat_err_of_open _ r _ rfl).2.1 hle ⟨?_, ?_⟩
  · intro i hi
    rw [recordKeyAt, slotText_eq_nil_iff, slice_getD_zero _ _ _ (by decide)]
    exact zerosWithByte_getD_ne _ _ _ _ (hk i hi)
  · intro k hk2
    rw [sensorAt_Name, slotText_eq_nil_iff, slice_getD_zero _ _ _ (by decide)]
    exact zerosWithByte_getD_ne _ _ _ _ (hs k hk2)

/-! ## C1: text decoding -/

/-- C1, as stated, fails at an odd size: on the one-byte source `0x41` the
claim's text for `readString(1)` is the byte at index 0, while the loop, which
only enters complete two-byte units, returns the empty text. -/
theorem readString_odd_size_counterexample :
    (readString (Memory.fresh [0x41]) 1).err = none ∧
      (readString (Memory.fresh [0x41]) 1).val = [] ∧
      upToZero (evenIndexBytes (slice [0x41] 0 1) 1) = [0x41] ∧
      (readString (Memory.fresh [0x41]) 1).val
        ≠ upToZero (evenIndexBytes (slice (Memory.fresh [0x41]).data
            (Memory.fresh [0x41]).pos 1) 1) := by
  decide

/-- C1 (amended): for every size and every byte source with at least `size`
bytes remaining, `readString(size)` succeeds and returns exactly the bytes at
the even indices `i` with `i + 1 < size` of the next `size` bytes, in order,
up to but not including the first of them that is zero; for an even size
these are all the even indices below `size`. A slot starting
`0x41,0x00,0x42,0x00,0x00,0x00` decodes to "AB" and a slot whose first byte is
zero decodes to the empty text. -/
theorem readString_text (m : Memory) (size : Nat) (h : m.pos + size ≤ m.data.length) :
    (readString m size).err = none ∧
      (readString m size).val
        = upToZero (evenIndexBytes (slice m.data m.pos size) (size - 1)) ∧
      (size % 2 = 0 → (readString m size).val
        = upToZero (evenIndexBytes (slice m.data m.pos size) size)) ∧
      (∀ rest : List Byte, slice m.data m.pos size = [0x41, 0x00, 0x42, 0x00, 0x00, 0x00] ++ rest →
        (readString m size).val = [0x41, 0x42]) ∧
      (∀ rest : List Byte, slice m.data m.pos size = 0x00 :: rest →
        (readString m size).val = []) := by
  obtain ⟨h1, h2, _, _⟩ := readString_of_le m size h
  have hv := readString_val_scan m size h
  refine ⟨h1, h2, ?_, ?_, ?_⟩
  · intro hev
    rw [h2, evenIndexBytes_pred_of_even _ _ hev]
  · intro rest hs
    rw [hv, hs]
    simp [readString.scan]
  · intro rest hs
    rw [hv, hs]
    cases rest <;> simp [readString.scan]

/-- Witness of `readString_text`: the slot `41 00 42 00 00 00` read whole. -/
theorem readString_text_witness :
    (readString (Memory.fresh [0x41, 0x00, 0x42, 0x00, 0x00, 0x00]) 6).val = [0x41, 0x42] :=
  (readString_text (Memory.fresh [0x41, 0x00, 0x42, 0x00, 0x00, 0x00]) 6 (by decide)).2.2.2.1
    [] (by decide)


/-! ## C2: bytes consumed -/

theorem Memory.Close_pos (m : Memory) : m.Close.pos = m.pos := rfl

/-- C2 (the code departs from the claim): on a region of the fixed size
`4+4+4 + 128*1024 + 128*624 = 210956` bytes, here filled with the byte `0x41`,
`GetStat` succeeds and its reads leave the cursor at `200204`: each sensor
iteration reads `512+16+4+8 = 540` bytes, not the 624 of the slot size, so
`128*84 = 10752` bytes of the region are never consumed. -/
theorem GetStat_consumes_less_than_region (r : SharedMemory) :
    (GetStat (serving (List.replicate regionSize (0x41 : Byte))) r).err = none ∧
      (GetStat (serving (List.replicate regionSize (0x41 : Byte))) r).r.memory.map Memory.pos
        = some 200204 ∧
      (List.replicate regionSize (0x41 : Byte)).length = 210956 ∧
      regionSize = 200204 + 128 * (624 - 540) := by
  have hlen : bytesRead ≤ (List.replicate regionSize (0x41 : Byte)).length := by
    rw [List.length_replicate]; decide
  obtain ⟨_, _, hm⟩ := GetStat_of_open (serving (List.replicate regionSize (0x41 : Byte))) r
    (List.replicate regionSize (0x41 : Byte)) rfl
  obtain ⟨_, _, _, b4⟩ := GetStat.body_spec (List.replicate regionSize (0x41 : Byte))
  refine ⟨GetStat_filled_ok r, ?_, ?_, by decide⟩
  · rw [hm, Option.map_some', Memory.Close_pos, (b4 hlen).1]
    rfl
  · rw [List.length_replicate]; rfl

/-! ## C3: the sensor slots -/

/-- C3 (the code departs from the claim): take the region of the fixed size
that is zero everywhere except for the byte `0x41` at offset
`12 + 128*1024 + 624*1`, the first byte of sensor slot 1 of the claim. The
name laid out in that slot is "A", so the claim lists it in
`AvailableSensors`; `GetStat`, whose sensor iterations are 540 bytes apart,
reads the name of its second sensor at offset `12 + 128*1024 + 540`, finds
every name empty, returns an empty `AvailableSensors` and fails with NoData. -/
theorem GetStat_sensor_slot_stride (r : SharedMemory) :
    (zerosWithByte regionSize (12 + 128 * 1024 + 624 * 1) 0x41).length = regionSize ∧
      (sensorAt (zerosWithByte regionSize (12 + 128 * 1024 + 624 * 1) 0x41)
        (12 + 128 * 1024 + 624 * 1)).Name = [0x41] ∧
      (GetStat (serving (zerosWithByte regionSize (12 + 128 * 1024 + 624 * 1) 0x41))
        r).stat.AvailableSensors = [] ∧
      (GetStat (serving (zerosWithByte regionSize (12 + 128 * 1024 + 624 * 1) 0x41))
        r).err = some Error.NoData := by
  have hlen : (zerosWithByte regionSize (12 + 128 * 1024 + 624 * 1) 0x41).length
      = regionSize := zerosWithByte_length _ _ _ (by decide)
  have hle : bytesRead
      ≤ (zerosWithByte regionSize (12 + 128 * 1024 + 624 * 1) 0x41).length := by
    rw [hlen]; decide
  have hkeys : ∀ i, i < 128 →
      recordKeyAt (zerosWithByte regionSize (12 + 128 * 1024 + 624 * 1) 0x41) 12 i = [] := by
    intro i hi
    rw [recordKeyAt, slotText_eq_nil_iff, slice_getD_zero _ _ _ (by decide)]
    exact zerosWithByte_getD_ne _ _ _ _ (by omega)
  have hnames : ∀ k, k < 128 →
      (sensorAt (zerosWithByte regionSize (12 + 128 * 1024 + 624 * 1) 0x41)
        (sensorsBase + 540 * k)).Name = [] := by
    intro k hk
    rw [sensorAt_Name, slotText_eq_nil_iff, slice_getD_zero _ _ _ (by decide)]
    exact zerosWithByte_getD_ne _ _ _ _ (by simp only [sensorsBase]; omega)
  refine ⟨hlen, ?_, ?_, ?_⟩
  · rw [sensorAt_Name]
    have hs : slice (zerosWithByte regionSize (12 + 128 * 1024 + 624 * 1) 0x41)
        (12 + 128 * 1024 + 624 * 1) 512 = 0x41 :: List.replicate 511 0 := by
      rw [slice, zerosWithByte_drop]
      have : regionSize - (12 + 128 * 1024 + 624 * 1) - 1 = 511 + 78736 := by decide
      rw [this, List.take_succ_cons, List.take_replicate]
      rfl
    rw [hs, slotText_eq_scan _ (by rw [List.length_cons, List.length_replicate])]
    have h2 : List.replicate 511 (0 : Byte) = 0 :: 0 :: List.replicate 509 0 := rfl
    rw [h2]
    simp [readString.scan]
  · rw [(GetStat_of_open _ r _ rfl).1, decodedStat_available_sensors _ hle,
      List.filter_eq_nil_iff]
    intro n hn
    obtain ⟨k, hk, rfl⟩ := List.mem_map.1 hn
    simp [hnames k (List.mem_range.1 hk)]
  · exact (GetStat_err_of_open _ r _ rfl).2.1 hle ⟨hkeys, hnames⟩

/-! ## C4: record slots and empty-slot skipping -/

/-- C4: when no read fails, record slot `i < 128` has its key decoded from the
512 bytes at offset `12 + 1024*i` (`recordKeyAt data 12 i`) and its value from
the following 512 bytes (`recordValueAt data 12 i`); `AvailableRecords` is
exactly the sequence of the non-empty keys of the 128 slots in slot order,
duplicates kept; and every slot with a non-empty key is retained whatever the
slots before it hold: its key is listed and mapped to the value of a slot at
or after it with the same key, to its own value when no other slot has that
key. -/
theorem GetStat_record_slots (shmOpen : Opener) (r : SharedMemory) (data : List Byte)
    (hopen : shmOpen r.name regionSize = Except.ok data)
    (hread : (GetStat shmOpen r).err ≠ some Error.ShortRead) :
    (GetStat shmOpen r).stat.AvailableRecords
        = ((List.range 128).map
            (fun i => slotText (slice data (12 + 1024 * i) 512))).filter (fun k => k ≠ []) ∧
      (∀ i, recordKeyAt data 12 i = slotText (slice data (12 + 1024 * i) 512) ∧
        recordValueAt data 12 i = slotText (slice data (12 + 1024 * i + 512) 512)) ∧
      (∀ j, j < 128 → recordKeyAt data 12 j ≠ [] →
        recordKeyAt data 12 j ∈ (GetStat shmOpen r).stat.AvailableRecords ∧
        (∃ i, j ≤ i ∧ i < 128 ∧ recordKeyAt data 12 i = recordKeyAt data 12 j ∧
          (GetStat shmOpen r).stat.Records.find (recordKeyAt data 12 j)
            = some (recordValueAt data 12 i)) ∧
        ((∀ i, j < i → i < 128 → recordKeyAt data 12 i ≠ recordKeyAt data 12 j) →
          (GetStat shmOpen r).stat.Records.find (recordKeyAt data 12 j)
            = some (recordValueAt data 12 j))) := by
  have hle : bytesRead ≤ data.length := by
    by_contra h
    exact hread ((GetStat_shortRead_iff shmOpen r data hopen).2 (by omega))
  obtain ⟨hs, _, _⟩ := GetStat_of_open shmOpen r data hopen
  rw [hs]
  have hav := decodedStat_available_records data hle
  refine ⟨hav, fun i => ⟨rfl, rfl⟩, fun j hj hk => ⟨?_, ?_, ?_⟩⟩
  · rw [hav, List.mem_filter]
    refine ⟨List.mem_map.2 ⟨j, List.mem_range.2 hj, rfl⟩, ?_⟩
    simpa using hk
  · rw [decodedStat_records data hle]
    exact recordSlots_find_some data 12 _ j 128 hj hk
  · intro hlast
    rw [decodedStat_records data hle]
    exact recordSlots_find_last data 12 _ j 128 hj hk hlast

/-- Witness of `GetStat_record_slots`: the region filled with the byte `0x41`. -/
theorem GetStat_record_slots_witness :
    (GetStat (serving (List.replicate regionSize (0x41 : Byte)))
        (NewSharedMemory [])).stat.AvailableRecords
      = ((List.range 128).map
          (fun i => slotText (slice (List.replicate regionSize (0x41 : Byte))
            (12 + 1024 * i) 512))).filter (fun k => k ≠ []) :=
  (GetStat_record_slots (serving (List.replicate regionSize (0x41 : Byte)))
    (NewSharedMemory []) (List.replicate regionSize (0x41 : Byte)) rfl
    (by rw [GetStat_filled_ok]; decide)).1

/-! ## C5: duplicate keys -/

/-- C5: when `GetStat` succeeds, for every non-empty key `k`, `Records[k]` is
the value of the highest-numbered record slot whose key is `k` (and `k` is
absent from `Records` when no slot has it), while `AvailableRecords` contains
`k` once for each slot whose key is `k`. -/
theorem GetStat_duplicate_keys (shmOpen : Opener) (r : SharedMemory) (data : List Byte)
    (hopen : shmOpen r.name regionSize = Except.ok data)
    (hok : (GetStat shmOpen r).err = none) (k : GoString) (hk : k ≠ []) :
    (∀ i, i < 128 → recordKeyAt data 12 i = k →
        (∀ j, i < j → j < 128 → recordKeyAt data 12 j ≠ k) →
        (GetStat shmOpen r).stat.Records.find k = some (recordValueAt data 12 i)) ∧
      ((∀ i, i < 128 → recordKeyAt data 12 i ≠ k) →
        (GetStat shmOpen r).stat.Records.find k = none) ∧
      (GetStat shmOpen r).stat.AvailableRecords.count k
        = ((List.range 128).filter (fun i => recordKeyAt data 12 i = k)).length := by
  have hle : bytesRead ≤ data.length := by
    by_contra h
    have := (GetStat_shortRead_iff shmOpen r data hopen).2 (by omega)
    rw [hok] at this
    exact absurd this (by decide)
  obtain ⟨hs, _, _⟩ := GetStat_of_open shmOpen r data hopen
  rw [hs]
  refine ⟨?_, ?_, ?_⟩
  · intro i hi hik hlast
    rw [decodedStat_records data hle]
    subst hik
    exact recordSlots_find_last data 12 _ i 128 hi hk hlast
  · intro hnone
    rw [decodedStat_records data hle, recordSlots_find_absent data 12 _ k 128 hnone]
    rfl
  · rw [decodedStat_available_records data hle, List.count_filter (by simpa using hk),
      List.count_eq_countP, List.countP_map, List.countP_eq_length_filter]
    congr 1
    apply List.filter_congr
    intro i _
    by_cases h : recordKeyAt data 12 i = k <;> simp [Function.comp_def, h]

/-- Witness of `GetStat_duplicate_keys`: the region filled with the byte
`0x41`, and the key of its record slot 0. -/
theorem GetStat_duplicate_keys_witness :
    (GetStat (serving (List.replicate regionSize (0x41 : Byte)))
        (NewSharedMemory [])).stat.AvailableRecords.count
          (recordKeyAt (List.replicate regionSize (0x41 : Byte)) 12 0)
      = ((List.range 128).filter
          (fun i => recordKeyAt (List.replicate regionSize (0x41 : Byte)) 12 i
            = recordKeyAt (List.replicate regionSize (0x41 : Byte)) 12 0)).length :=
  (GetStat_duplicate_keys (serving (List.replicate regionSize (0x41 : Byte)))
    (NewSharedMemory []) (List.replicate regionSize (0x41 : Byte)) rfl
    (GetStat_filled_ok _) _ (recordKeyAt_replicate_41 regionSize (by decide))).2.2

/-! ## C6: the success condition -/

/-- C6 (the code departs from the claim): the success condition is decided on
the sensor names read 540 bytes apart, not on the 128 sensor slots of 624
bytes. On the region of the fixed size that is zero except for the byte
`0x41` at offset `12 + 128*1024 + 624`, sensor slot 1 has a non-empty name,
yet `GetStat` fails with NoData. On the region that is zero except for `0x41`
at offset `12 + 128*1024 + 540`, every record key and every sensor slot name
is empty, yet `GetStat` returns without error. -/
theorem GetStat_success_condition_stride (r : SharedMemory) :
    (zerosWithByte regionSize (12 + 128 * 1024 + 624 * 1) 0x41).length
        = 4 + 4 + 4 + 128 * 1024 + 128 * 624 ∧
      (∃ k, k < 128 ∧
        (sensorAt (zerosWithByte regionSize (12 + 128 * 1024 + 624 * 1) 0x41)
          (12 + 128 * 1024 + 624 * k)).Name ≠ []) ∧
      (GetStat (serving (zerosWithByte regionSize (12 + 128 * 1024 + 624 * 1) 0x41)) r).err
        = some Error.NoData ∧
      (zerosWithByte regionSize (12 + 128 * 1024 + 540 * 1) 0x41).length
        = 4 + 4 + 4 + 128 * 1024 + 128 * 624 ∧
      (∀ i, i < 128 →
        recordKeyAt (zerosWithByte regionSize (12 + 128 * 1024 + 540 * 1) 0x41) 12 i = []) ∧
      (∀ k, k < 128 →
        (sensorAt (zerosWithByte regionSize (12 + 128 * 1024 + 540 * 1) 0x41)
          (12 + 128 * 1024 + 624 * k)).Name = []) ∧
      (GetStat (serving (zerosWithByte regionSize (12 + 128 * 1024 + 540 * 1) 0x41)) r).err
        = none := by
  have hne : (0x41 : Byte) ≠ 0 := by decide
  have hl1 : (zerosWithByte regionSize (12 + 128 * 1024 + 624 * 1) 0x41).length
      = regionSize := zerosWithByte_length _ _ _ (by decide)
  have hl2 : (zerosWithByte regionSize (12 + 128 * 1024 + 540 * 1) 0x41).length
      = regionSize := zerosWithByte_length _ _ _ (by decide)
  have hle2 : bytesRead
      ≤ (zerosWithByte regionSize (12 + 128 * 1024 + 540 * 1) 0x41).length := by
    rw [hl2]; decide
  have hkeys : ∀ i, i < 128 →
      recordKeyAt (zerosWithByte regionSize (12 + 128 * 1024 + 540 * 1) 0x41) 12 i = [] := by
    intro i hi
    rw [recordKeyAt, slotText_eq_nil_iff, slice_getD_zero _ _ _ (by decide)]
    exact zerosWithByte_getD_ne _ _ _ _ (by omega)
  refine ⟨by rw [hl1]; decide, ⟨1, by decide, ?_⟩, ?_, by rw [hl2]; decide, hkeys, ?_, ?_⟩
  · intro he
    rw [sensorAt_Name, slotText_eq_nil_iff, slice_getD_zero _ _ _ (by decide),
      zerosWithByte_getD_self] at he
    exact hne he
  · exact GetStat_zerosWithByte_noData r _ _ (by decide) (fun i hi => by omega)
      (fun k hk => by simp only [sensorsBase]; omega)
  · intro k hk
    rw [sensorAt_Name, slotText_eq_nil_iff, slice_getD_zero _ _ _ (by decide)]
    exact zerosWithByte_getD_ne _ _ _ _ (by omega)
  · refine (GetStat_err_of_open _ r _ rfl).2.2 hle2 ?_
    intro hall
    have he := hall.2 1 (by decide)
    rw [sensorAt_Name, slotText_eq_nil_iff, slice_getD_zero _ _ _ (by decide)] at he
    have hoff : sensorsBase + 540 * 1 = 12 + 128 * 1024 + 540 * 1 := by decide
    rw [hoff, zerosWithByte_getD_self] at he
    exact hne he

/-- The check of line 101 over the bytes as `GetStat` reads them: on a region
of the exact fixed size, `GetStat` returns without error if and only if one
of the 128 record keys or one of the 128 sensor names it reads (the name of
iteration `k` being read at offset `12 + 128*1024 + 540*k`) is non-empty, and
fails with NoData otherwise; it succeeds exactly when the two maps it returns
are not both empty. -/
theorem GetStat_success_iff (shmOpen : Opener) (r : SharedMemory) (data : List Byte)
    (hopen : shmOpen r.name regionSize = Except.ok data)
    (hsize : data.length = regionSize) :
    ((GetStat shmOpen r).err = none ↔
        ((∃ i, i < 128 ∧ recordKeyAt data 12 i ≠ []) ∨
          (∃ k, k < 128 ∧ (sensorAt data (12 + 128 * 1024 + 540 * k)).Name ≠ []))) ∧
      ((GetStat shmOpen r).err ≠ none → (GetStat shmOpen r).err = some Error.NoData) ∧
      ((GetStat shmOpen r).err = none ↔
        ¬ ((GetStat shmOpen r).stat.Records.len = 0 ∧
          (GetStat shmOpen r).stat.SensorRecords.len = 0)) := by
  have hle : bytesRead ≤ data.length := by rw [hsize]; decide
  obtain ⟨_, h2, h3⟩ := GetStat_err_of_open shmOpen r data hopen
  have hmaps : ((GetStat shmOpen r).err = none ↔
      ¬ ((GetStat shmOpen r).stat.Records.len = 0 ∧
        (GetStat shmOpen r).stat.SensorRecords.len = 0)) := by
    rw [(GetStat_of_open shmOpen r data hopen).1, (GetStat_of_open shmOpen r data hopen).2.1,
      ((GetStat.body_spec data).2.2.2 hle).2]
    split
    · rename_i h
      exact ⟨fun e => absurd e (by decide), fun e => absurd h e⟩
    · rename_i h
      exact ⟨fun _ => h, fun _ => rfl⟩
  have hall : ((∀ i, i < 128 → recordKeyAt data 12 i = []) ∧
      (∀ k, k < 128 → (sensorAt data (sensorsBase + 540 * k)).Name = [])) ↔
      ¬ ((∃ i, i < 128 ∧ recordKeyAt data 12 i ≠ []) ∨
        (∃ k, k < 128 ∧ (sensorAt data (12 + 128 * 1024 + 540 * k)).Name ≠ [])) := by
    simp only [sensorsBase, not_or, not_exists, not_and, not_not]
  by_cases hc : ((∀ i, i < 128 → recordKeyAt data 12 i = []) ∧
      (∀ k, k < 128 → (sensorAt data (sensorsBase + 540 * k)).Name = []))
  · have he := h2 hle hc
    refine ⟨?_, fun _ => he, hmaps⟩
    rw [he]
    constructor
    · intro h; exact absurd h (by decide)
    · intro h; exact absurd h (hall.1 hc)
  · have he := h3 hle hc
    refine ⟨?_, fun h => absurd he h, hmaps⟩
    rw [he]
    constructor
    · intro _
      by_contra hn
      exact hc (hall.2 hn)
    · intro _; rfl

/-- Witness of `GetStat_success_iff`: the region filled with the byte `0x41`,
whose record slot 0 has a non-empty key. -/
theorem GetStat_success_iff_witness :
    (GetStat (serving (List.replicate regionSize (0x41 : Byte))) (NewSharedMemory [])).err
      = none :=
  ((GetStat_success_iff (serving (List.replicate regionSize (0x41 : Byte)))
    (NewSharedMemory []) (List.replicate regionSize (0x41 : Byte)) rfl
    (List.length_replicate _ _)).1).2
    (Or.inl ⟨0, by decide, recordKeyAt_replicate_41 regionSize (by decide)⟩)

/-! ## C7: short buffers -/

/-- C7 (the code departs from the claim): the all-zero byte source of `200204`
bytes is shorter than the fixed total size `12 + 128*1024 + 128*624 = 210956`,
yet no read of `GetStat` runs out of bytes on it: the reads ask for 540 bytes
per sensor slot, `200204` bytes in all, and `GetStat` fails with NoData, not
with a short read. -/
theorem GetStat_short_source_no_short_read (r : SharedMemory) :
    (List.replicate 200204 (0 : Byte)).length < 12 + 128 * 1024 + 128 * 624 ∧
      (GetStat.reads GetStat.initial (Memory.fresh (List.replicate 200204 (0 : Byte)))).err
        = none ∧
      (GetStat (serving (List.replicate 200204 (0 : Byte))) r).err = some Error.NoData := by
  have hle : bytesRead ≤ (List.replicate 200204 (0 : Byte)).length := by
    rw [List.length_replicate]; decide
  refine ⟨by rw [List.length_replicate]; decide, ?_, ?_⟩
  · exact ((GetStat.reads_spec _).2.2.1 hle).1
  · rw [(GetStat_of_open _ r _ rfl).2.1, ((GetStat.body_spec _).2.2.2 hle).2,
      decodedStat_replicate_zero]
    rfl

/-! ## C8: what is returned with a read error -/

/-- C8, as stated, fails: on the four-byte source `00 00 00 05` the second
read fails, and the `Stat` returned with the error carries the `Version` 5
decoded before it; it is not the empty `Stat`. -/
theorem GetStat_partial_stat_counterexample :
    (GetStat (serving [0x00, 0x00, 0x00, 0x05]) (NewSharedMemory [])).err
        = some Error.ShortRead ∧
      (GetStat (serving [0x00, 0x00, 0x00, 0x05]) (NewSharedMemory [])).stat.Version = 5 ∧
      (GetStat (serving [0x00, 0x00, 0x00, 0x05]) (NewSharedMemory [])).stat
        ≠ GetStat.initial := by
  decide

/-- C8 (amended): whenever a read fails partway through the fixed sequence,
`GetStat` surfaces the short-read error, and the `Stat` returned alongside it
holds what was stored before the failing read: each header word that lies
wholly inside the bytes, and the records and sensors of the slots that lie
wholly inside them, in slot order. -/
theorem GetStat_stat_on_read_failure (shmOpen : Opener) (r : SharedMemory)
    (data : List Byte) (hopen : shmOpen r.name regionSize = Except.ok data)
    (hfail : (GetStat.reads GetStat.initial (Memory.fresh data)).err ≠ none) :
    (GetStat shmOpen r).err = some Error.ShortRead ∧
      (GetStat shmOpen r).stat = decodedStat data ∧
      (4 ≤ data.length →
        (GetStat shmOpen r).stat.Version = BigEndian.Uint32 (slice data 0 4)) ∧
      (8 ≤ data.length →
        (GetStat shmOpen r).stat.Busy = BigEndian.Uint32 (slice data 4 4)) ∧
      (12 ≤ data.length →
        (GetStat shmOpen r).stat.LastUpdate = BigEndian.Uint32 (slice data 8 4)) ∧
      (GetStat shmOpen r).stat.AvailableRecords
        = ((List.range (min 128 ((data.length - 12) / 1024))).map
            (fun i => recordKeyAt data 12 i)).filter (fun k => k ≠ []) ∧
      (GetStat shmOpen r).stat.AvailableSensors
        = ((List.range (min 128 ((data.length - (12 + 128 * 1024)) / 540))).map
            (fun k => (sensorAt data (12 + 128 * 1024 + 540 * k)).Name)).filter
            (fun k => k ≠ []) := by
  have hlt : data.length < bytesRead := by
    by_contra h
    exact hfail ((GetStat.reads_spec data).2.2.1 (by omega)).1
  obtain ⟨hs, _, _⟩ := GetStat_of_open shmOpen r data hopen
  obtain ⟨v, b, l⟩ := decodedStat_header data
  refine ⟨(GetStat_err_of_open shmOpen r data hopen).1 hlt, hs, ?_, ?_, ?_, ?_, ?_⟩
  · intro h
    rw [hs, v]
    simp [headerStat, h]
  · intro h
    rw [hs, b]
    simp [headerStat, h]
  · intro h
    rw [hs, l]
    simp [headerStat, h]
  · rw [hs]; exact decodedStat_available_records_upto data
  · rw [hs]; exact decodedStat_available_sensors_upto data

/-- Witness of `GetStat_stat_on_read_failure`: the source `00 00 00 05`. -/
theorem GetStat_stat_on_read_failure_witness :
    (GetStat (serving [0x00, 0x00, 0x00, 0x05]) (NewSharedMemory [])).err
        = some Error.ShortRead ∧
      (GetStat (serving [0x00, 0x00, 0x00, 0x05]) (NewSharedMemory [])).stat.Version
        = BigEndian.Uint32 (slice [0x00, 0x00, 0x00, 0x05] 0 4) :=
  ⟨(GetStat_stat_on_read_failure (serving [0x00, 0x00, 0x00, 0x05]) (NewSharedMemory [])
      [0x00, 0x00, 0x00, 0x05] rfl (by decide)).1,
    (GetStat_stat_on_read_failure (serving [0x00, 0x00, 0x00, 0x05]) (NewSharedMemory [])
      [0x00, 0x00, 0x00, 0x05] rfl (by decide)).2.2.1 (by decide)⟩

/-! ## C9: the all-zero region -/

/-- C9: on the all-zero region of the exact fixed size no read of `GetStat`
fails, `Version`, `Busy` and `LastUpdate` are 0, both maps and both available
sequences are empty, and `GetStat` fails with NoData, not with a short read. -/
theorem GetStat_all_zero (r : SharedMemory) :
    (List.replicate regionSize (0 : Byte)).length = 4 + 4 + 4 + 128 * 1024 + 128 * 624 ∧
      (GetStat.reads GetStat.initial (Memory.fresh (List.replicate regionSize (0 : Byte)))).err
        = none ∧
      (GetStat (serving (List.replicate regionSize (0 : Byte))) r).stat.Version = 0 ∧
      (GetStat (serving (List.replicate regionSize (0 : Byte))) r).stat.Busy = 0 ∧
      (GetStat (serving (List.replicate regionSize (0 : Byte))) r).stat.LastUpdate = 0 ∧
      (GetStat (serving (List.replicate regionSize (0 : Byte))) r).stat.Records.len = 0 ∧
      (GetStat (serving (List.replicate regionSize (0 : Byte))) r).stat.SensorRecords.len = 0 ∧
      (GetStat (serving (List.replicate regionSize (0 : Byte))) r).stat.AvailableRecords = [] ∧
      (GetStat (serving (List.replicate regionSize (0 : Byte))) r).stat.AvailableSensors = [] ∧
      (GetStat (serving (List.replicate regionSize (0 : Byte))) r).err = some Error.NoData ∧
      (GetStat (serving (List.replicate regionSize (0 : Byte))) r).err
        ≠ some Error.ShortRead := by
  have hle : bytesRead ≤ (List.replicate regionSize (0 : Byte)).length := by
    rw [List.length_replicate]; decide
  have hs : (GetStat (serving (List.replicate regionSize (0 : Byte))) r).stat
      = GetStat.initial := by
    rw [(GetStat_of_open _ r _ rfl).1, decodedStat_replicate_zero]
  have he : (GetStat (serving (List.replicate regionSize (0 : Byte))) r).err
      = some Error.NoData := by
    rw [(GetStat_of_open _ r _ rfl).2.1, ((GetStat.body_spec _).2.2.2 hle).2,
      decodedStat_replicate_zero]
    rfl
  refine ⟨by rw [List.length_replicate]; decide, ((GetStat.reads_spec _).2.2.1 hle).1,
    ?_, ?_, ?_, ?_, ?_, ?_, ?_, he, ?_⟩
  · rw [hs]; rfl
  · rw [hs]; rfl
  · rw [hs]; rfl
  · rw [hs]; rfl
  · rw [hs]; rfl
  · rw [hs]; rfl
  · rw [hs]; rfl
  · rw [he]; decide

/-! ## C10: the header -/

/-- C10: for every buffer with at least 12 bytes, `GetStat` sets `Version`,
`Busy` and `LastUpdate` to the unsigned 32-bit big-endian values of bytes
0..3, 4..7 and 8..11, the value of `b0 b1 b2 b3` being
`b0*2^24 + b1*2^16 + b2*2^8 + b3`; the raw bytes `00 00 00 05` decode to 5. -/
theorem GetStat_header_fields (shmOpen : Opener) (r : SharedMemory) (data : List Byte)
    (hopen : shmOpen r.name regionSize = Except.ok data) (hlen : 12 ≤ data.length) :
    (GetStat shmOpen r).stat.Version
        = (data.getD 0 0).val * 2 ^ 24 + (data.getD 1 0).val * 2 ^ 16
          + (data.getD 2 0).val * 2 ^ 8 + (data.getD 3 0).val ∧
      (GetStat shmOpen r).stat.Busy
        = (data.getD 4 0).val * 2 ^ 24 + (data.getD 5 0).val * 2 ^ 16
          + (data.getD 6 0).val * 2 ^ 8 + (data.getD 7 0).val ∧
      (GetStat shmOpen r).stat.LastUpdate
        = (data.getD 8 0).val * 2 ^ 24 + (data.getD 9 0).val * 2 ^ 16
          + (data.getD 10 0).val * 2 ^ 8 + (data.getD 11 0).val ∧
      (readInt32 (Memory.fresh [0x00, 0x00, 0x00, 0x05])).val = 5 ∧
      (readInt32 (Memory.fresh [0x00, 0x00, 0x00, 0x05])).err = none := by
  obtain ⟨hs, _, _⟩ := GetStat_of_open shmOpen r data hopen
  obtain ⟨v, b, l⟩ := decodedStat_header data
  have h4 : 0 + 4 ≤ data.length := by omega
  have h8 : 0 + 8 ≤ data.length := by omega
  have h12 : 0 + 12 ≤ data.length := by omega
  refine ⟨?_, ?_, ?_, by decide, by decide⟩
  · rw [hs, v]
    simp only [headerStat, h4, if_true]
    rw [BigEndian.Uint32_eq, slice_getD _ _ _ 0 (by decide), slice_getD _ _ _ 1 (by decide),
      slice_getD _ _ _ 2 (by decide), slice_getD _ _ _ 3 (by decide)]
  · rw [hs, b]
    simp only [headerStat, h8, if_true]
    rw [BigEndian.Uint32_eq, slice_getD _ _ _ 0 (by decide), slice_getD _ _ _ 1 (by decide),
      slice_getD _ _ _ 2 (by decide), slice_getD _ _ _ 3 (by decide)]
  · rw [hs, l]
    simp only [headerStat, h12, if_true]
    rw [BigEndian.Uint32_eq, slice_getD _ _ _ 0 (by decide), slice_getD _ _ _ 1 (by decide),
      slice_getD _ _ _ 2 (by decide), slice_getD _ _ _ 3 (by decide)]

/-- Witness of `GetStat_header_fields`: a 12-byte source whose header words
are 5, 1 and 258. -/
theorem GetStat_header_fields_witness :
    (GetStat (serving [0x00, 0x00, 0x00, 0x05, 0x00, 0x00, 0x00, 0x01, 0x00, 0x00, 0x01, 0x02])
      (NewSharedMemory [])).stat.Version = 5 :=
  (GetStat_header_fields
    (serving [0x00, 0x00, 0x00, 0x05, 0x00, 0x00, 0x00, 0x01, 0x00, 0x00, 0x01, 0x02])
    (NewSharedMemory [])
    [0x00, 0x00, 0x00, 0x05, 0x00, 0x00, 0x00, 0x01, 0x00, 0x00, 0x01, 0x02] rfl
    (by decide)).1.trans (by decide)

/-! ## C11: the float field -/

/-- C11: for every 8 bytes `b0..b7` read, `readFloat64` returns, with a nil
error, the double whose 64-bit pattern is `b0 + b1*2^8 + ... + b7*2^56`; the
bytes `00 00 00 00 00 40 45 40` give the pattern `0x4045400000000000`, which
is the double 42.5 exactly. -/
theorem readFloat64_bits (m : Memory) (h : m.pos + 8 ≤ m.data.length) :
    (readFloat64 m).err = none ∧
      (readFloat64 m).val
        = (m.data.getD (m.pos + 0) 0).val + (m.data.getD (m.pos + 1) 0).val * 2 ^ 8
          + (m.data.getD (m.pos + 2) 0).val * 2 ^ 16
          + (m.data.getD (m.pos + 3) 0).val * 2 ^ 24
          + (m.data.getD (m.pos + 4) 0).val * 2 ^ 32
          + (m.data.getD (m.pos + 5) 0).val * 2 ^ 40
          + (m.data.getD (m.pos + 6) 0).val * 2 ^ 48
          + (m.data.getD (m.pos + 7) 0).val * 2 ^ 56 ∧
      (readFloat64 m).mem.pos = m.pos + 8 ∧
      (slice m.data m.pos 8 = [0x00, 0x00, 0x00, 0x00, 0x00, 0x40, 0x45, 0x40] →
        (readFloat64 m).val = 0x4045400000000000 ∧
        float64Value (readFloat64 m).val = some (85 / 2)) := by
  obtain ⟨h1, h2, h3, _⟩ := readFloat64_of_le m h
  refine ⟨h1, ?_, h3, ?_⟩
  · rw [h2, LittleEndian.Uint64_eq, slice_getD _ _ _ 0 (by decide),
      slice_getD _ _ _ 1 (by decide), slice_getD _ _ _ 2 (by decide),
      slice_getD _ _ _ 3 (by decide), slice_getD _ _ _ 4 (by decide),
      slice_getD _ _ _ 5 (by decide), slice_getD _ _ _ 6 (by decide),
      slice_getD _ _ _ 7 (by decide)]
  · intro hs
    have hv : (readFloat64 m).val = 0x4045400000000000 := by
      rw [h2, hs]; decide
    refine ⟨hv, ?_⟩
    rw [hv]
    norm_num [float64Value]

/-- Witness of `readFloat64_bits`: the eight bytes of 42.5. -/
theorem readFloat64_bits_witness :
    (readFloat64 (Memory.fresh [0x00, 0x00, 0x00, 0x00, 0x00, 0x40, 0x45, 0x40])).val
        = 0x4045400000000000 ∧
      float64Value
        (readFloat64 (Memory.fresh [0x00, 0x00, 0x00, 0x00, 0x00, 0x40, 0x45, 0x40])).val
        = some (85 / 2) :=
  (readFloat64_bits (Memory.fresh [0x00, 0x00, 0x00, 0x00, 0x00, 0x40, 0x45, 0x40])
    (by decide)).2.2.2 (by decide)

/-! ## C12: lookups and the available sequences -/

/-- C12: for every `Stat` returned by `GetStat` (a successful one in
particular) and every title `t`: `GetRecord(t)` reports found if and only if
`t` occurs in `GetAvailableRecords()`; `GetSensor(t)` and `GetSensorValue(t)`
report found if and only if `t` occurs in `GetAvailableSensors()`; when found
they return the stored record value, the stored sensor record and that
record's `Value`; and when not found `GetSensorValue` returns 0. -/
theorem Stat_lookups_agree (shmOpen : Opener) (r : SharedMemory) (t : GoString) :
    (((GetStat shmOpen r).stat.GetRecord t).2 = true ↔
        t ∈ (GetStat shmOpen r).stat.GetAvailableRecords) ∧
      (((GetStat shmOpen r).stat.GetSensor t).2 = true ↔
        t ∈ (GetStat shmOpen r).stat.GetAvailableSensors) ∧
      (((GetStat shmOpen r).stat.GetSensorValue t).2 = true ↔
        t ∈ (GetStat shmOpen r).stat.GetAvailableSensors) ∧
      (∀ v, (GetStat shmOpen r).stat.Records.find t = some v →
        (GetStat shmOpen r).stat.GetRecord t = (v, true)) ∧
      (∀ sr, (GetStat shmOpen r).stat.SensorRecords.find t = some sr →
        (GetStat shmOpen r).stat.GetSensor t = (sr, true) ∧
        (GetStat shmOpen r).stat.GetSensorValue t = (sr.Value, true)) ∧
      (t ∉ (GetStat shmOpen r).stat.GetAvailableSensors →
        (GetStat shmOpen r).stat.GetSensorValue t = (0, false)) := by
  obtain ⟨data, hd⟩ := GetStat_stat_decoded shmOpen r
  have hc : (GetStat shmOpen r).stat.Consistent := by
    rw [hd]; exact decodedStat_consistent data
  exact Stat.lookups_of_consistent _ hc t

/-! ## C13: release of the byte source -/

/-- C13: whenever the byte source was opened, `GetStat` returns with the
source closed exactly once, whatever the bytes (so on success, on a read
error and on NoData alike), and the close is the last call made on it: every
call before it is a read, none comes after. -/
theorem GetStat_closes_once (shmOpen : Opener) (r : SharedMemory) (data : List Byte)
    (hopen : shmOpen r.name regionSize = Except.ok data) :
    ∃ m reads, (GetStat shmOpen r).r.memory = some m ∧ m.data = data ∧
      m.log = reads ++ [MemEvent.close] ∧ readsOnly reads ∧
      m.log.count MemEvent.close = 1 := by
  obtain ⟨_, _, hm⟩ := GetStat_of_open shmOpen r data hopen
  have hro := GetStat.body_readsOnly GetStat.initial (Memory.fresh data) readsOnly_nil
  refine ⟨_, (GetStat.body GetStat.initial (Memory.fresh data)).mem.log, hm,
    (GetStat.body_spec data).2.1, rfl, hro, ?_⟩
  show ((GetStat.body GetStat.initial (Memory.fresh data)).mem.log
    ++ [MemEvent.close]).count MemEvent.close = 1
  rw [List.count_append]
  have h0 : (GetStat.body GetStat.initial (Memory.fresh data)).mem.log.count MemEvent.close
      = 0 := by
    rw [List.count_eq_zero]
    intro hmem
    obtain ⟨n, hn⟩ := hro _ hmem
    cases hn
  rw [h0]
  rfl

/-- Witness of `GetStat_closes_once`: the source `00 00 00 05`, on which the
second read fails. -/
theorem GetStat_closes_once_witness :
    ∃ m reads, (GetStat (serving [0x00, 0x00, 0x00, 0x05]) (NewSharedMemory [])).r.memory
        = some m ∧ m.data = [0x00, 0x00, 0x00, 0x05] ∧
      m.log = reads ++ [MemEvent.close] ∧ readsOnly reads ∧
      m.log.count MemEvent.close = 1 :=
  GetStat_closes_once (serving [0x00, 0x00, 0x00, 0x05]) (NewSharedMemory [])
    [0x00, 0x00, 0x00, 0x05] rfl

/-! ## C14: the narrowing decode -/

/-- C14: for every size (every even size in particular) and any two slots of
`size` bytes that agree on every even-indexed byte up to and including the
first even-indexed zero byte (on all even-indexed bytes when none is zero),
`readString(size)` returns the same text for both, whatever their
odd-indexed bytes and whatever follows the terminator. -/
theorem readString_narrowing (m1 m2 : Memory) (size : Nat)
    (h1 : m1.pos + size ≤ m1.data.length) (h2 : m2.pos + size ≤ m2.data.length)
    (hagree : ∀ i, i < size → i % 2 = 0 →
      (∀ j, j < i → j % 2 = 0 → (slice m1.data m1.pos size).getD j 0 ≠ 0) →
      (slice m1.data m1.pos size).getD i 0 = (slice m2.data m2.pos size).getD i 0) :
    (readString m1 size).val = (readString m2 size).val ∧
      (readString m1 size).err = none ∧ (readString m2 size).err = none := by
  have l1 := slice_length m1.data m1.pos size h1
  have l2 := slice_length m2.data m2.pos size h2
  refine ⟨?_, (readString_of_le m1 size h1).1, (readString_of_le m2 size h2).1⟩
  rw [readString_val_scan m1 size h1, readString_val_scan m2 size h2]
  apply readString.scan_agree _ _ [] (by rw [l1, l2])
  rw [l1]
  exact hagree

/-- Witness of `readString_narrowing`: two slots spelling "AB" that differ in
their high bytes and after the terminator. -/
theorem readString_narrowing_witness :
    (readString (Memory.fresh [0x41, 0xFF, 0x42, 0x01, 0x00, 0x07, 0x43, 0x00]) 8).val
      = (readString (Memory.fresh [0x41, 0x00, 0x42, 0x00, 0x00, 0x00, 0x00, 0x00]) 8).val :=
  (readString_narrowing (Memory.fresh [0x41, 0xFF, 0x42, 0x01, 0x00, 0x07, 0x43, 0x00])
    (Memory.fresh [0x41, 0x00, 0x42, 0x00, 0x00, 0x00, 0x00, 0x00]) 8 (by decide) (by decide)
    (by decide)).1

/-! ## C15: the memory field after the call -/

/-- C15, as stated, fails: a decoder made by `NewSharedMemory` has a nil
`memory` field; after `GetStat` (here on an empty source) the field holds the
byte source opened for the call, read once and closed. -/
theorem GetStat_memory_field_counterexample :
    (NewSharedMemory []).memory = none ∧
      (GetStat (serving []) (NewSharedMemory [])).r.memory
        = some { data := [], pos := 0, log := [MemEvent.read 4, MemEvent.close] } ∧
      (GetStat (serving []) (NewSharedMemory [])).r.memory ≠ (NewSharedMemory []).memory := by
  decide

/-- C15 (amended): after `GetStat` returns, the name of the decoder is
unchanged; if the open failed, the decoder is exactly as before the call; if
the source was opened, the `memory` field holds the byte source opened for
that call, already closed (line 37 stores it and nothing resets it), whatever
the field held before the call; so a decoder whose `memory` field was nil
before the call has a different, non-nil field after it. -/
theorem GetStat_memory_field (shmOpen : Opener) (r : SharedMemory) :
    (GetStat shmOpen r).r.name = r.name ∧
      (∀ data, shmOpen r.name regionSize = Except.ok data →
        ∃ m, (GetStat shmOpen r).r.memory = some m ∧ m.data = data ∧
          m.log.getLast? = some MemEvent.close) ∧
      (∀ e, shmOpen r.name regionSize = Except.error e → (GetStat shmOpen r).r = r) ∧
      (∀ data, shmOpen r.name regionSize = Except.ok data → r.memory = none →
        (GetStat shmOpen r).r.memory ≠ r.memory) ∧
      (∀ data (before : Option Memory), shmOpen r.name regionSize = Except.ok data →
        (GetStat shmOpen { name := r.name, memory := before }).r.memory
          = (GetStat shmOpen r).r.memory) := by
  refine ⟨?_, ?_, ?_, ?_, ?_⟩
  · unfold GetStat
    split <;> rfl
  · intro data hopen
    obtain ⟨_, _, hm⟩ := GetStat_of_open shmOpen r data hopen
    refine ⟨_, hm, (GetStat.body_spec data).2.1, ?_⟩
    show ((GetStat.body GetStat.initial (Memory.fresh data)).mem.log
      ++ [MemEvent.close]).getLast? = _
    simp
  · intro e he
    simp only [GetStat, he]
  · intro data hopen hnil
    rw [(GetStat_of_open shmOpen r data hopen).2.2, hnil]
    exact fun h => Option.noConfusion h
  · intro data before hopen
    rw [(GetStat_of_open shmOpen r data hopen).2.2,
      (GetStat_of_open shmOpen { name := r.name, memory := before } data hopen).2.2]

/-! ## C16: no state between calls -/

/-- C16: two decoders, whatever their `memory` fields hold on entry, whose
opens yield the same bytes (or the same failure) get the same `Stat` and the
same error from `GetStat`: the result depends on what the open yields
only. -/
theorem GetStat_stateless (open1 open2 : Opener) (r1 r2 : SharedMemory)
    (hsame : open1 r1.name regionSize = open2 r2.name regionSize) :
    (GetStat open1 r1).stat = (GetStat open2 r2).stat ∧
      (GetStat open1 r1).err = (GetStat open2 r2).err := by
  unfold GetStat
  rw [hsame]
  split <;> exact ⟨rfl, rfl⟩

/-- Witness of `GetStat_stateless`: a fresh decoder and one left with a closed
source by an earlier call, same name, same bytes. -/
theorem GetStat_stateless_witness :
    (GetStat (serving [0x00, 0x00, 0x00, 0x05]) { name := [0x47], memory := none }).stat
        = (GetStat (serving [0x00, 0x00, 0x00, 0x05])
            { name := [0x47], memory := some (Memory.fresh [0x01]).Close }).stat ∧
      (GetStat (serving [0x00, 0x00, 0x00, 0x05]) { name := [0x47], memory := none }).err
        = (GetStat (serving [0x00, 0x00, 0x00, 0x05])
            { name := [0x47], memory := some (Memory.fresh [0x01]).Close }).err :=
  GetStat_stateless (serving [0x00, 0x00, 0x00, 0x05]) (serving [0x00, 0x00, 0x00, 0x05])
    { name := [0x47], memory := none }
    { name := [0x47], memory := some (Memory.fresh [0x01]).Close } rfl

/-! ## C17: bytes never inspected -/

/-- C17: two buffers of the fixed region size that agree on their first
`12 + 128*1024 + 128*(512+16+4+8) = 200204` bytes yield the same `Stat` and
the same error from `GetStat`; the bytes from offset 200204 on never
influence the result. -/
theorem GetStat_ignores_tail (open1 open2 : Opener) (r1 r2 : SharedMemory)
    (d1 d2 : List Byte)
    (ho1 : open1 r1.name regionSize = Except.ok d1)
    (ho2 : open2 r2.name regionSize = Except.ok d2)
    (hl1 : d1.length = regionSize) (hl2 : d2.length = regionSize)
    (hagree : d1.take 200204 = d2.take 200204) :
    (GetStat open1 r1).stat = (GetStat open2 r2).stat ∧
      (GetStat open1 r1).err = (GetStat open2 r2).err := by
  have h1 : bytesRead ≤ d1.length := by rw [hl1]; decide
  have h2 : bytesRead ≤ d2.length := by rw [hl2]; decide
  have hs : ∀ off n, off + n ≤ bytesRead → slice d1 off n = slice d2 off n := by
    intro off n h
    have hb : bytesRead = 200204 := by decide
    rw [hb] at h
    rw [← slice_take d1 200204 off n h, ← slice_take d2 200204 off n h, hagree]
  have hd := decodedStat_congr d1 d2 h1 h2 hs
  obtain ⟨s1, e1, _⟩ := GetStat_of_open open1 r1 d1 ho1
  obtain ⟨s2, e2, _⟩ := GetStat_of_open open2 r2 d2 ho2
  refine ⟨by rw [s1, s2, hd], ?_⟩
  rw [e1, e2, ((GetStat.body_spec d1).2.2.2 h1).2, ((GetStat.body_spec d2).2.2.2 h2).2, hd]

/-- Witness of `GetStat_ignores_tail`: the region filled with `0x41` and the
one whose last 10752 bytes are zero instead. -/
theorem GetStat_ignores_tail_witness :
    (GetStat (serving (List.replicate regionSize (0x41 : Byte))) (NewSharedMemory [])).stat
        = (GetStat (serving (List.replicate 200204 (0x41 : Byte)
            ++ List.replicate 10752 (0x00 : Byte))) (NewSharedMemory [])).stat ∧
      (GetStat (serving (List.replicate regionSize (0x41 : Byte))) (NewSharedMemory [])).err
        = (GetStat (serving (List.replicate 200204 (0x41 : Byte)
            ++ List.replicate 10752 (0x00 : Byte))) (NewSharedMemory [])).err :=
  GetStat_ignores_tail _ _ (NewSharedMemory []) (NewSharedMemory [])
    (List.replicate regionSize (0x41 : Byte))
    (List.replicate 200204 (0x41 : Byte) ++ List.replicate 10752 (0x00 : Byte))
    rfl rfl (List.length_replicate _ _)
    (by rw [List.length_append, List.length_replicate, List.length_replicate]; decide)
    (by
      rw [List.take_left' (List.length_replicate _ _), List.take_replicate]
      rfl)

/-! ## C18: map key and record name -/

/-- C18: for every `Stat` returned by `GetStat` and every name `n` present in
`SensorRecords`, the record stored under `n` has `Name = n`, so
`GetSensor(n)`, when found, returns a record whose `Name` is `n`. -/
theorem SensorRecords_key_is_name (shmOpen : Opener) (r : SharedMemory) (n : GoString)
    (sr : SensorRecord) (h : (GetStat shmOpen r).stat.SensorRecords.find n = some sr) :
    sr.Name = n ∧ (GetStat shmOpen r).stat.GetSensor n = (sr, true) ∧
      ((GetStat shmOpen r).stat.GetSensor n).1.Name = n := by
  have hn := (GetStat_stat_consistent shmOpen r).2.2 n sr h
  have hg : (GetStat shmOpen r).stat.GetSensor n = (sr, true) := by
    simp [Stat.GetSensor, h]
  exact ⟨hn, hg, by rw [hg]; exact hn⟩

/-- Witness of `SensorRecords_key_is_name`: the last sensor slot of the region
filled with `0x41`. -/
theorem SensorRecords_key_is_name_witness :
    (sensorAt (List.replicate regionSize (0x41 : Byte)) (sensorsBase + 540 * 127)).Name
      = (sensorAt (List.replicate regionSize (0x41 : Byte)) (sensorsBase + 540 * 127)).Name ∧
    (GetStat (serving (List.replicate regionSize (0x41 : Byte)))
        (NewSharedMemory [])).stat.GetSensor
        (sensorAt (List.replicate regionSize (0x41 : Byte)) (sensorsBase + 540 * 127)).Name
      = (sensorAt (List.replicate regionSize (0x41 : Byte)) (sensorsBase + 540 * 127), true) :=
  ⟨(SensorRecords_key_is_name (serving (List.replicate regionSize (0x41 : Byte)))
      (NewSharedMemory []) _ _ (GetStat_filled_last_sensor _)).1,
    (SensorRecords_key_is_name (serving (List.replicate regionSize (0x41 : Byte)))
      (NewSharedMemory []) _ _ (GetStat_filled_last_sensor _)).2.1⟩

/-! ## C19: size bounds -/

/-- C19: for every `Stat` returned by `GetStat`, with or without error:
`AvailableRecords` and `AvailableSensors` have at most 128 elements;
`Records` and `SensorRecords` have no more entries than the corresponding
sequence; every key and every sensor name, listed or stored, is non-empty, at
most 256 bytes long and free of zero bytes; every record value is at most 256
bytes long and every sensor `Unit` at most 8 bytes long. -/
theorem GetStat_size_bounds (shmOpen : Opener) (r : SharedMemory) :
    (GetStat shmOpen r).stat.AvailableRecords.length ≤ 128 ∧
      (GetStat shmOpen r).stat.AvailableSensors.length ≤ 128 ∧
      (GetStat shmOpen r).stat.Records.len ≤ (GetStat shmOpen r).stat.AvailableRecords.length ∧
      (GetStat shmOpen r).stat.SensorRecords.len
        ≤ (GetStat shmOpen r).stat.AvailableSensors.length ∧
      (∀ k ∈ (GetStat shmOpen r).stat.AvailableRecords,
        k ≠ [] ∧ k.length ≤ 256 ∧ (0 : Byte) ∉ k) ∧
      (∀ k ∈ (GetStat shmOpen r).stat.AvailableSensors,
        k ≠ [] ∧ k.length ≤ 256 ∧ (0 : Byte) ∉ k) ∧
      (∀ k v, (GetStat shmOpen r).stat.Records.find k = some v →
        k ≠ [] ∧ k.length ≤ 256 ∧ (0 : Byte) ∉ k ∧ v.length ≤ 256) ∧
      (∀ k sr, (GetStat shmOpen r).stat.SensorRecords.find k = some sr →
        k ≠ [] ∧ k.length ≤ 256 ∧ (0 : Byte) ∉ k ∧ sr.Name = k ∧ sr.Unit.length ≤ 8) ∧
      (∀ p ∈ (GetStat shmOpen r).stat.Records.entries,
        p.1 ≠ [] ∧ p.1.length ≤ 256 ∧ (0 : Byte) ∉ p.1 ∧ p.2.length ≤ 256) ∧
      (∀ p ∈ (GetStat shmOpen r).stat.SensorRecords.entries,
        p.1 ≠ [] ∧ p.1.length ≤ 256 ∧ (0 : Byte) ∉ p.1 ∧ p.2.Name = p.1 ∧
          p.2.Unit.length ≤ 8) := by
  obtain ⟨a1, a2⟩ := GetStat_stat_available_le shmOpen r
  obtain ⟨b1, b2, b3, b4, b5, b6⟩ := GetStat_stat_bounded shmOpen r
  refine ⟨a1, a2, b1, b2, b3, b4, ?_, ?_, ?_, ?_⟩
  · intro k v h
    obtain ⟨⟨g1, g2, g3⟩, g4⟩ := b5 (k, v) (lookup_mem _ k v h)
    exact ⟨g1, g2, g3, g4⟩
  · intro k sr h
    obtain ⟨⟨g1, g2, g3⟩, g4, g5⟩ := b6 (k, sr) (lookup_mem _ k sr h)
    exact ⟨g1, g2, g3, g4, g5⟩
  · intro p hp
    obtain ⟨⟨g1, g2, g3⟩, g4⟩ := b5 p hp
    exact ⟨g1, g2, g3, g4⟩
  · intro p hp
    obtain ⟨⟨g1, g2, g3⟩, g4, g5⟩ := b6 p hp
    exact ⟨g1, g2, g3, g4, g5⟩

end gpuz
